import Mathlib

/-!
Verification of the ACL compression core (track database, range descriptors,
decayed sampling, uniform key selection, hierarchical sampling) against its
natural-language specification.

Floats are modelled as exact rationals; machine `uint32_t` arithmetic is
modelled as natural numbers reduced modulo 2^32 at every `uint32_t`
operation.  The SOA buffer is modelled as a total function from byte
offsets to rationals; every float access in the source is 4-byte aligned
and reads or writes the slot at its base byte offset.
-/

/-- Reduction modulo 2^32, modelling `uint32_t` wrap-around. -/
def u32 (x : ℕ) : ℕ := x % 4294967296

/-- Unsigned 32-bit subtraction `a - b` (two's-complement wrap-around),
for `a b < 2^32`. -/
def usub32 (a b : ℕ) : ℕ := (a + (4294967296 - b)) % 4294967296

/-- A 4-lane SIMD float register (`Vector4_32`), each lane an exact rational. -/
structure Vec4 where
  x : ℚ
  y : ℚ
  z : ℚ
  w : ℚ
deriving DecidableEq

/-- `vector_set(x, y, z, w)`. -/
def vector_set (x y z w : ℚ) : Vec4 := ⟨x, y, z, w⟩

/-- `vector_zero_32()`. -/
def vector_zero_32 : Vec4 := ⟨0, 0, 0, 0⟩

/-- Lane-wise `vector_mul_add(v, m, a) = v * m + a`. -/
def vector_mul_add (v m a : Vec4) : Vec4 :=
  ⟨v.x * m.x + a.x, v.y * m.y + a.y, v.z * m.z + a.z, v.w * m.w + a.w⟩

/-- Lane-wise negation of a quaternion/vector. -/
def vector_neg (v : Vec4) : Vec4 := ⟨-v.x, -v.y, -v.z, -v.w⟩

/-- Lane-wise linear interpolation `a + (b - a) * alpha`. -/
def vector_lerp (a b : Vec4) (alpha : ℚ) : Vec4 :=
  ⟨a.x + (b.x - a.x) * alpha, a.y + (b.y - a.y) * alpha,
   a.z + (b.z - a.z) * alpha, a.w + (b.w - a.w) * alpha⟩

/-- Squared 4-lane norm of a quaternion. -/
def quat_norm_sq (v : Vec4) : ℚ := v.x ^ 2 + v.y ^ 2 + v.z ^ 2 + v.w ^ 2

/-- The identity quaternion (0, 0, 0, 1). -/
def quat_identity_32 : Vec4 := ⟨0, 0, 0, 1⟩

/-- `RotationFormat8` (track_types.h). -/
inductive RotationFormat8 where
  | Quat_128
  | QuatDropW_96
  | QuatDropW_48
  | QuatDropW_32
  | QuatDropW_Variable
deriving DecidableEq

/-- `VectorFormat8` (track_types.h). -/
inductive VectorFormat8 where
  | Vector3_96
  | Vector3_48
  | Vector3_32
  | Vector3_Variable
deriving DecidableEq

/-- `k_bit_rate_num_bits` (track_types.h): bits per component for each
bit-rate index; index 0 is constant-in-segment, the last (value 32) is raw. -/
def k_bit_rate_num_bits : List ℕ := [0, 3, 4, 5, 6, 7, 8, 9, 10, 11, 12, 13, 14, 15, 16, 17, 18, 19, 32]

/-- `k_highest_bit_rate = sizeof(k_bit_rate_num_bits) - 1 = 18`. -/
def k_highest_bit_rate : ℕ := 18

/-- `get_num_bits_at_bit_rate` (track_types.h): indexes the bit-rate table. -/
def get_num_bits_at_bit_rate (bit_rate : ℕ) : ℕ := k_bit_rate_num_bits.getD bit_rate 0

/-- `is_constant_bit_rate` (track_types.h). -/
def is_constant_bit_rate (bit_rate : ℕ) : Prop := bit_rate = 0

instance (bit_rate : ℕ) : Decidable (is_constant_bit_rate bit_rate) := by
  unfold is_constant_bit_rate
  infer_instance

/-- `is_raw_bit_rate` (track_types.h). -/
def is_raw_bit_rate (bit_rate : ℕ) : Prop := bit_rate = k_highest_bit_rate

instance (bit_rate : ℕ) : Decidable (is_raw_bit_rate bit_rate) := by
  unfold is_raw_bit_rate
  infer_instance

/-- `k_invalid_bone_index` (a `uint16_t` sentinel, value 0xFFFF). -/
def k_invalid_bone_index : ℕ := 65535

/-- `SampleDistribution8` (segment_context.h). -/
inductive SampleDistribution8 where
  | Uniform
  | Variable
deriving DecidableEq

/-- `AdditiveClipFormat8`: whether the clip is additive (default scale zero)
or a normal clip (default scale one). -/
inductive AdditiveClipFormat8 where
  | None
  | Additive
deriving DecidableEq

/-- Modelled from the spec: `get_default_scale` (the clip header is not part
of the sources).  Spec section 3: the default scale is the identity for
normal clips and zero for additive clips. -/
def get_default_scale (fmt : AdditiveClipFormat8) : Vec4 :=
  match fmt with
  | AdditiveClipFormat8.None => ⟨1, 1, 1, 1⟩
  | AdditiveClipFormat8.Additive => ⟨0, 0, 0, 0⟩

/-- `qvvf_ranges` (segment_context.h): per-transform min/extent and flags for
each of rotation, translation, scale.  `vector_unaligned_load` of the
3-float min/extent arrays fills a 4th lane from adjacent memory; that lane
is modelled by the `w` component of the stored `Vec4`.  The
`are_*_normalized` booleans are the per-transform normalization flags read
by sample_streams.h. -/
structure QvvfRanges where
  rotation_min : Vec4
  rotation_extent : Vec4
  translation_min : Vec4
  translation_extent : Vec4
  scale_min : Vec4
  scale_extent : Vec4
  is_rotation_constant : Bool
  is_rotation_default : Bool
  is_translation_constant : Bool
  is_translation_default : Bool
  is_scale_constant : Bool
  is_scale_default : Bool
  are_rotations_normalized : Bool
  are_translations_normalized : Bool
  are_scales_normalized : Bool

/-- The all-zero `qvvf_ranges` produced by the constructor's `memset`. -/
def QvvfRanges.zero : QvvfRanges :=
  ⟨vector_zero_32, vector_zero_32, vector_zero_32, vector_zero_32, vector_zero_32, vector_zero_32,
   false, false, false, false, false, false, false, false, false⟩

/-- `acl_impl::segment_context` (segment_context.h), restricted to the fields
the verified functions read. -/
structure SegmentContext where
  index : ℕ
  num_transforms : ℕ
  start_offset : ℕ
  num_samples_per_track : ℕ
  num_simd_samples_per_track : ℕ
  soa_size : ℕ
  soa_start_offset : ℕ
  distribution : SampleDistribution8
  are_rotations_normalized : Bool
  are_translations_normalized : Bool
  are_scales_normalized : Bool
  ranges : ℕ → QvvfRanges

/-- `get_num_components_per_transform` (track_database.h line 48), verbatim:
`has_scale ? 7 : 10`.  The source comment on the same line reads
"rot(4) + trans(3) + optional scale(3)". -/
def get_num_components_per_transform (has_scale : Bool) : ℕ :=
  if has_scale then 7 else 10

/-- `acl_impl::track_database` (track_database.h).  The contiguous SOA byte
buffer `m_data` is a total function from byte offsets to the float stored
at that offset; `m_parent` models `m_skeleton.get_bones()[i].parent_index`. -/
structure TrackDatabase where
  m_data : ℕ → ℚ
  m_num_transforms : ℕ
  m_num_samples_per_track : ℕ
  m_sample_rate : ℚ
  m_duration : ℚ
  m_rotation_format : RotationFormat8
  m_translation_format : VectorFormat8
  m_scale_format : VectorFormat8
  m_has_scale : Bool
  m_default_scale : Vec4
  m_ranges : ℕ → QvvfRanges
  m_parent : ℕ → ℕ

/-- `track_database::get_range`. -/
def TrackDatabase.get_range (db : TrackDatabase) (transform_index : ℕ) : QvvfRanges :=
  db.m_ranges transform_index

/-- `track_database::get_parent_index`. -/
def TrackDatabase.get_parent_index (db : TrackDatabase) (transform_index : ℕ) : ℕ :=
  db.m_parent transform_index

/-- `component_size = sizeof(float) * num_simd_samples_per_track`
(uint32_t), shared preamble of every track_database accessor. -/
def component_size (S : ℕ) : ℕ := u32 (4 * S)

/-- `transform_size = component_size * num_components_per_transform`
(uint32_t). -/
def transform_size (has_scale : Bool) (S : ℕ) : ℕ :=
  u32 (component_size S * get_num_components_per_transform has_scale)

/-- `offset_y = offset_x + component_size` with `offset_x = 0` (uint32_t). -/
def offset_y (S : ℕ) : ℕ := u32 (0 + component_size S)

/-- `offset_z = offset_y + component_size` (uint32_t). -/
def offset_z (S : ℕ) : ℕ := u32 (offset_y S + component_size S)

/-- `offset_w = offset_z + component_size` (uint32_t). -/
def offset_w (S : ℕ) : ℕ := u32 (offset_z S + component_size S)

/-- `rotation_offset = transform_offset = transform_index * transform_size`
(uint32_t). -/
def rotation_offset (has_scale : Bool) (S t : ℕ) : ℕ :=
  u32 (t * transform_size has_scale S)

/-- `translation_offset = rotation_offset + rotation_track_size` where
`rotation_track_size = component_size * 4` (uint32_t). -/
def translation_offset (has_scale : Bool) (S t : ℕ) : ℕ :=
  u32 (rotation_offset has_scale S t + u32 (component_size S * 4))

/-- `scale_offset = translation_offset + translation_track_size` where
`translation_track_size = component_size * 3` (uint32_t). -/
def scale_offset (has_scale : Bool) (S t : ℕ) : ℕ :=
  u32 (translation_offset has_scale S t + u32 (component_size S * 3))

/-- `track_database::get_rotation` (track_database.h lines 358-382). -/
def TrackDatabase.get_rotation (db : TrackDatabase) (seg : SegmentContext) (t i : ℕ) : Vec4 :=
  let S := seg.num_simd_samples_per_track
  let base := seg.soa_start_offset + rotation_offset db.m_has_scale S t
  vector_set (db.m_data (base + 0 + 4 * i)) (db.m_data (base + offset_y S + 4 * i))
    (db.m_data (base + offset_z S + 4 * i)) (db.m_data (base + offset_w S + 4 * i))

/-- `track_database::get_translation` (track_database.h lines 384-409). -/
def TrackDatabase.get_translation (db : TrackDatabase) (seg : SegmentContext) (t i : ℕ) : Vec4 :=
  let S := seg.num_simd_samples_per_track
  let base := seg.soa_start_offset + translation_offset db.m_has_scale S t
  vector_set (db.m_data (base + 0 + 4 * i)) (db.m_data (base + offset_y S + 4 * i))
    (db.m_data (base + offset_z S + 4 * i)) 0

/-- `track_database::get_scale` (track_database.h lines 411-441): returns the
default scale when the clip has no scale channel. -/
def TrackDatabase.get_scale (db : TrackDatabase) (seg : SegmentContext) (t i : ℕ) : Vec4 :=
  if db.m_has_scale = false then db.m_default_scale
  else
    let S := seg.num_simd_samples_per_track
    let base := seg.soa_start_offset + scale_offset db.m_has_scale S t
    vector_set (db.m_data (base + 0 + 4 * i)) (db.m_data (base + offset_y S + 4 * i))
      (db.m_data (base + offset_z S + 4 * i)) 0

/-- Point update of the SOA buffer: one float store at a byte offset. -/
def writeData (d : ℕ → ℚ) (off : ℕ) (v : ℚ) : ℕ → ℚ :=
  fun o => if o = off then v else d o

/-- `track_database::set_rotation` (track_database.h lines 443-470): four
sequential float stores. -/
def TrackDatabase.set_rotation (db : TrackDatabase) (rotation : Vec4) (seg : SegmentContext) (t i : ℕ) : TrackDatabase :=
  let S := seg.num_simd_samples_per_track
  let base := seg.soa_start_offset + rotation_offset db.m_has_scale S t
  let d := writeData db.m_data (base + 0 + 4 * i) rotation.x
  let d := writeData d (base + offset_y S + 4 * i) rotation.y
  let d := writeData d (base + offset_z S + 4 * i) rotation.z
  let d := writeData d (base + offset_w S + 4 * i) rotation.w
  { db with m_data := d }

/-- `track_database::set_translation` (track_database.h lines 472-499). -/
def TrackDatabase.set_translation (db : TrackDatabase) (translation : Vec4) (seg : SegmentContext) (t i : ℕ) : TrackDatabase :=
  let S := seg.num_simd_samples_per_track
  let base := seg.soa_start_offset + translation_offset db.m_has_scale S t
  let d := writeData db.m_data (base + 0 + 4 * i) translation.x
  let d := writeData d (base + offset_y S + 4 * i) translation.y
  let d := writeData d (base + offset_z S + 4 * i) translation.z
  { db with m_data := d }

/-- `track_database::set_scale` (track_database.h lines 501-533): a no-op
when the clip has no scale channel. -/
def TrackDatabase.set_scale (db : TrackDatabase) (scale : Vec4) (seg : SegmentContext) (t i : ℕ) : TrackDatabase :=
  if db.m_has_scale = false then db
  else
    let S := seg.num_simd_samples_per_track
    let base := seg.soa_start_offset + scale_offset db.m_has_scale S t
    let d := writeData db.m_data (base + 0 + 4 * i) scale.x
    let d := writeData d (base + offset_y S + 4 * i) scale.y
    let d := writeData d (base + offset_z S + 4 * i) scale.z
    { db with m_data := d }

/-!
Quantization codec and sampler helpers.  The pack/unpack/decay routines
live in math headers that are not part of the sources, so they are
modelled from the spec (section 4.1).
-/

/-- Round-to-nearest on rationals (half rounds up), as produced by the
fixed-point quantizers. -/
def roundQ (x : ℚ) : ℤ := Int.floor (x + 1 / 2)

/-- Modelled from the spec: normalized N-bit decay of one component
(vector4_packing.h is not part of the sources).  Spec section 4.1: pack
maps x to round(x * (2^N - 1)); unpack is the mathematical inverse; decay
is pack-then-unpack. -/
def decay_scalar_uN (N : ℕ) (x : ℚ) : ℚ :=
  (roundQ (x * ((2 : ℚ) ^ N - 1)) : ℚ) / ((2 : ℚ) ^ N - 1)

/-- Modelled from the spec: signed N-bit decay of one component.  Spec
section 4.1: signed quantization maps [-1, 1] to [0, 1] via (x + 1) / 2,
quantizes, and unpack inverts both steps. -/
def decay_scalar_sN (N : ℕ) (x : ℚ) : ℚ :=
  decay_scalar_uN N ((x + 1) / 2) * 2 - 1

/-- Modelled from the spec: `decay_vector3_u48` = 16/16/16 normalized
pack-then-unpack of the x, y, z lanes (the w lane of the decayed register
is left unspecified by the codec and is modelled as 0). -/
def decay_vector3_u48 (v : Vec4) : Vec4 :=
  ⟨decay_scalar_uN 16 v.x, decay_scalar_uN 16 v.y, decay_scalar_uN 16 v.z, 0⟩

/-- Modelled from the spec: `decay_vector3_uXX` = N/N/N normalized
pack-then-unpack of the x, y, z lanes. -/
def decay_vector3_uXX (v : Vec4) (N : ℕ) : Vec4 :=
  ⟨decay_scalar_uN N v.x, decay_scalar_uN N v.y, decay_scalar_uN N v.z, 0⟩

/-- Modelled from the spec: `decay_vector3_sXX` = N/N/N signed
pack-then-unpack of the x, y, z lanes. -/
def decay_vector3_sXX (v : Vec4) (N : ℕ) : Vec4 :=
  ⟨decay_scalar_sN N v.x, decay_scalar_sN N v.y, decay_scalar_sN N v.z, 0⟩

/-- Modelled from the spec: one lane of `normalize_sample`
(normalize_streams.h is not part of the sources).  Spec section 4.2:
rewrite x to (x - min) / extent where extent > 0, and to 0 otherwise. -/
def normalize_scalar (x min extent : ℚ) : ℚ :=
  if 0 < extent then (x - min) / extent else 0

/-- Modelled from the spec: `normalize_sample(v, min, extent)`, lane-wise
re-normalization of a sample against a range. -/
def normalize_sample (v min extent : Vec4) : Vec4 :=
  ⟨normalize_scalar v.x min.x extent.x, normalize_scalar v.y min.y extent.y,
   normalize_scalar v.z min.z extent.z, normalize_scalar v.w min.w extent.w⟩

/-- Modelled from the spec: `convert_rotation`
(convert_rotation_streams.h is not part of the sources).  Conversions into
`Quat_128` are verbatim; conversions into any drop-w format flip the
quaternion sign when w < 0, per the glossary's "rotation convention that
w >= 0". -/
def convert_rotation (v : Vec4) (from_format to_format : RotationFormat8) : Vec4 :=
  match from_format, to_format with
  | _, RotationFormat8.Quat_128 => v
  | _, _ => if v.w < 0 then vector_neg v else v

/-- The exact float operations of the math layer that compute square roots
(`quat_normalize`, `quat_from_positive_w`) have no rational realization,
so the samplers are parametric in them; theorems constrain them where
their value matters. -/
structure FloatOps where
  quatNormalize : Vec4 → Vec4
  quatFromPositiveW : Vec4 → Vec4

/-- Modelled from the spec: the defining property of
`quat_from_positive_w v` at a value `v`: it keeps x, y, z and reconstructs
w = +sqrt(1 - x^2 - y^2 - z^2) (clamped at 0), i.e. the unique w >= 0 with
w^2 = max 0 (1 - x^2 - y^2 - z^2). -/
def SpecFromPositiveW (ops : FloatOps) (v : Vec4) : Prop :=
  (ops.quatFromPositiveW v).x = v.x ∧ (ops.quatFromPositiveW v).y = v.y ∧
  (ops.quatFromPositiveW v).z = v.z ∧ 0 ≤ (ops.quatFromPositiveW v).w ∧
  (ops.quatFromPositiveW v).w ^ 2 = max 0 (1 - (v.x ^ 2 + v.y ^ 2 + v.z ^ 2))

/-- `impl::rotation_to_quat_32` (sample_streams.h lines 116-131):
verbatim for `Quat_128`, `quat_from_positive_w` for every drop-w format. -/
def rotation_to_quat_32 (ops : FloatOps) (v : Vec4) (format : RotationFormat8) : Vec4 :=
  match format with
  | RotationFormat8.Quat_128 => v
  | _ => ops.quatFromPositiveW v

/-- `acl_impl::get_rotation_sample(database, segment, transform_index,
sample_index)` (sample_streams.h lines 175-202). -/
def get_rotation_sample (ops : FloatOps) (db : TrackDatabase) (seg : SegmentContext) (t i : ℕ) : Vec4 :=
  let clipR := db.get_range t
  let segR := seg.ranges t
  let p0 := db.get_rotation seg t i
  let p1 := if segR.are_rotations_normalized then
      vector_mul_add p0 segR.rotation_extent segR.rotation_min
    else p0
  let p2 := if clipR.are_rotations_normalized then
      vector_mul_add p1 clipR.rotation_extent clipR.rotation_min
    else p1
  rotation_to_quat_32 ops p2 db.m_rotation_format

/-- `acl_impl::get_translation_sample(database, segment, transform_index,
sample_index)` (sample_streams.h lines 501-530). -/
def get_translation_sample (db : TrackDatabase) (seg : SegmentContext) (t i : ℕ) : Vec4 :=
  let clipR := db.get_range t
  let segR := seg.ranges t
  let p0 := db.get_translation seg t i
  let p1 := if segR.are_translations_normalized then
      vector_mul_add p0 segR.translation_extent segR.translation_min
    else p0
  if clipR.are_translations_normalized then
    vector_mul_add p1 clipR.translation_extent clipR.translation_min
  else p1

/-- `acl_impl::get_scale_sample(database, segment, transform_index,
sample_index)` (sample_streams.h lines 811-841), verbatim: the value is
read with `database.get_translation` and remapped by the scale ranges. -/
def get_scale_sample (db : TrackDatabase) (seg : SegmentContext) (t i : ℕ) : Vec4 :=
  let clipR := db.get_range t
  let segR := seg.ranges t
  let p0 := db.get_translation seg t i
  let p1 := if segR.are_scales_normalized then
      vector_mul_add p0 segR.scale_extent segR.scale_min
    else p0
  if clipR.are_scales_normalized then
    vector_mul_add p1 clipR.scale_extent clipR.scale_min
  else p1

/-- `acl_impl::get_decayed_rotation_sample(raw_database, mutable_database,
segment, transform_index, sample_index, desired_bit_rate)`
(sample_streams.h lines 277-346). -/
def get_decayed_rotation_sample (ops : FloatOps) (raw mutDB : TrackDatabase) (seg : SegmentContext) (t i bit_rate : ℕ) : Vec4 :=
  let raw_format := raw.m_rotation_format
  let mutable_format := mutDB.m_rotation_format
  let clipR := mutDB.get_range t
  let segR := seg.ranges t
  let step :=
    if is_constant_bit_rate bit_rate then
      let rotation := convert_rotation (raw.get_rotation seg t 0) raw_format mutable_format
      let normalized := normalize_sample rotation clipR.rotation_min clipR.rotation_extent
      (decay_vector3_u48 normalized, clipR.are_rotations_normalized, false)
    else if is_raw_bit_rate bit_rate then
      (convert_rotation (raw.get_rotation seg t i) raw_format mutable_format, false, false)
    else
      let num_bits := get_num_bits_at_bit_rate bit_rate
      let rotation := mutDB.get_rotation seg t i
      let packed :=
        if clipR.are_rotations_normalized then decay_vector3_uXX rotation num_bits
        else decay_vector3_sXX rotation num_bits
      (packed, clipR.are_rotations_normalized, segR.are_rotations_normalized)
  let p1 := if step.2.2 then vector_mul_add step.1 segR.rotation_extent segR.rotation_min else step.1
  let p2 := if step.2.1 then vector_mul_add p1 clipR.rotation_extent clipR.rotation_min else p1
  rotation_to_quat_32 ops p2 mutable_format

/-- `acl_impl::get_decayed_translation_sample(raw_database,
mutable_database, segment, transform_index, sample_index,
desired_bit_rate)` (sample_streams.h lines 596-658). -/
def get_decayed_translation_sample (raw mutDB : TrackDatabase) (seg : SegmentContext) (t i bit_rate : ℕ) : Vec4 :=
  let clipR := mutDB.get_range t
  let segR := seg.ranges t
  let step :=
    if is_constant_bit_rate bit_rate then
      let translation := raw.get_translation seg t 0
      let normalized := normalize_sample translation clipR.translation_min clipR.translation_extent
      (decay_vector3_u48 normalized, clipR.are_translations_normalized, false)
    else if is_raw_bit_rate bit_rate then
      (raw.get_translation seg t i, false, false)
    else
      let num_bits := get_num_bits_at_bit_rate bit_rate
      (decay_vector3_uXX (mutDB.get_translation seg t i) num_bits,
       clipR.are_translations_normalized, segR.are_translations_normalized)
  let p1 := if step.2.2 then vector_mul_add step.1 segR.translation_extent segR.translation_min else step.1
  if step.2.1 then vector_mul_add p1 clipR.translation_extent clipR.translation_min else p1

/-- `acl_impl::get_decayed_scale_sample(raw_database, mutable_database,
segment, transform_index, sample_index, desired_bit_rate)`
(sample_streams.h lines 906-968), verbatim: the intermediate-bit-rate
branch copies `are_translations_normalized` into both normalization
booleans. -/
def get_decayed_scale_sample (raw mutDB : TrackDatabase) (seg : SegmentContext) (t i bit_rate : ℕ) : Vec4 :=
  let clipR := mutDB.get_range t
  let segR := seg.ranges t
  let step :=
    if is_constant_bit_rate bit_rate then
      let scale := raw.get_scale seg t 0
      let normalized := normalize_sample scale clipR.scale_min clipR.scale_extent
      (decay_vector3_u48 normalized, clipR.are_scales_normalized, false)
    else if is_raw_bit_rate bit_rate then
      (raw.get_scale seg t i, false, false)
    else
      let num_bits := get_num_bits_at_bit_rate bit_rate
      (decay_vector3_uXX (mutDB.get_scale seg t i) num_bits,
       clipR.are_translations_normalized, segR.are_translations_normalized)
  let p1 := if step.2.2 then vector_mul_add step.1 segR.scale_extent segR.scale_min else step.1
  if step.2.1 then vector_mul_add p1 clipR.scale_extent clipR.scale_min else p1

/-!
Key location, pose sampling and hierarchical sampling.
-/

/-- `SampleRoundingPolicy`. -/
inductive SampleRoundingPolicy where
  | None
  | Nearest
deriving DecidableEq

/-- Modelled from the spec:
`find_linear_interpolation_samples_with_sample_rate` (core/utils.h is not
part of the sources).  Spec section 4.6: (k0, k1) = (floor(t * rate),
floor(t * rate) + 1) clamped to the valid sample indices, alpha = the
fractional part; under the Nearest policy alpha rounds to 0 or 1. -/
def find_linear_interpolation_samples_with_sample_rate (num_samples : ℕ) (sample_rate sample_time : ℚ) (policy : SampleRoundingPolicy) : ℕ × ℕ × ℚ :=
  let sample_index := sample_time * sample_rate
  let f := (Int.floor sample_index).toNat
  let key0 := min f (num_samples - 1)
  let key1 := min (f + 1) (num_samples - 1)
  let alpha := sample_index - (Int.floor sample_index : ℚ)
  match policy with
  | SampleRoundingPolicy.None => (key0, key1, alpha)
  | SampleRoundingPolicy.Nearest => (key0, key1, if alpha < 1 / 2 then 0 else 1)

/-- `acl_impl::get_uniform_sample_key(num_samples_per_track_in_clip,
sample_rate, num_samples_per_track_in_segment, segment_start_offset,
sample_time)` (sample_streams.h lines 1092-1119).  The two
`key - segment_start_offset` subtractions and the `key >= num` compares
are unsigned 32-bit operations. -/
def get_uniform_sample_key (num_clip : ℕ) (sample_rate : ℚ) (num_seg start_offset : ℕ) (sample_time : ℚ) : ℕ :=
  let r := find_linear_interpolation_samples_with_sample_rate num_clip sample_rate sample_time SampleRoundingPolicy.Nearest
  let key0a := usub32 (u32 r.1) (u32 start_offset)
  let s0 := if num_seg ≤ key0a then ((0 : ℕ), (1 : ℚ)) else (key0a, r.2.2)
  let key1a := usub32 (u32 r.2.1) (u32 start_offset)
  let s1 := if num_seg ≤ key1a then ((num_seg - 1 : ℕ), (0 : ℚ)) else (key1a, s0.2)
  if s1.2 = 0 then s0.1 else s1.1

/-- `acl_impl::sample_context` (sample_streams.h lines 1082-1090). -/
structure SampleContext where
  track_index : ℕ
  sample_key : ℕ
  sample_time : ℚ

/-- Modelled from the spec: `quat_lerp` (quat_32.h is not part of the
sources).  Spec section 4.6: rotations are interpolated with normalized
linear interpolation. -/
def quat_lerp (ops : FloatOps) (a b : Vec4) (alpha : ℚ) : Vec4 :=
  ops.quatNormalize (vector_lerp a b alpha)

/-- `acl_impl::sample_rotation<distribution>(context, database, segment)`
(sample_streams.h lines 1168-1209). -/
def sample_rotation (ops : FloatOps) (dist : SampleDistribution8) (ctx : SampleContext) (db : TrackDatabase) (seg : SegmentContext) : Vec4 :=
  let tr := db.get_range ctx.track_index
  if tr.is_rotation_default then quat_identity_32
  else if tr.is_rotation_constant then
    ops.quatNormalize (get_rotation_sample ops db seg ctx.track_index 0)
  else
    match dist with
    | SampleDistribution8.Variable =>
      let r := find_linear_interpolation_samples_with_sample_rate seg.num_samples_per_track db.m_sample_rate ctx.sample_time SampleRoundingPolicy.None
      quat_lerp ops (get_rotation_sample ops db seg ctx.track_index r.1)
        (get_rotation_sample ops db seg ctx.track_index r.2.1) r.2.2
    | SampleDistribution8.Uniform =>
      ops.quatNormalize (get_rotation_sample ops db seg ctx.track_index ctx.sample_key)

/-- `acl_impl::sample_translation<distribution>(context, database, segment)`
(sample_streams.h lines 1312-1353). -/
def sample_translation (dist : SampleDistribution8) (ctx : SampleContext) (db : TrackDatabase) (seg : SegmentContext) : Vec4 :=
  let tr := db.get_range ctx.track_index
  if tr.is_translation_default then vector_zero_32
  else if tr.is_translation_constant then get_translation_sample db seg ctx.track_index 0
  else
    match dist with
    | SampleDistribution8.Variable =>
      let r := find_linear_interpolation_samples_with_sample_rate seg.num_samples_per_track db.m_sample_rate ctx.sample_time SampleRoundingPolicy.None
      vector_lerp (get_translation_sample db seg ctx.track_index r.1)
        (get_translation_sample db seg ctx.track_index r.2.1) r.2.2
    | SampleDistribution8.Uniform => get_translation_sample db seg ctx.track_index ctx.sample_key

/-- `acl_impl::sample_scale<distribution>(context, database, segment)`
(sample_streams.h lines 1449-1490). -/
def sample_scale (dist : SampleDistribution8) (ctx : SampleContext) (db : TrackDatabase) (seg : SegmentContext) : Vec4 :=
  let tr := db.get_range ctx.track_index
  if tr.is_scale_default then db.m_default_scale
  else if tr.is_scale_constant then get_scale_sample db seg ctx.track_index 0
  else
    match dist with
    | SampleDistribution8.Variable =>
      let r := find_linear_interpolation_samples_with_sample_rate seg.num_samples_per_track db.m_sample_rate ctx.sample_time SampleRoundingPolicy.None
      vector_lerp (get_scale_sample db seg ctx.track_index r.1)
        (get_scale_sample db seg ctx.track_index r.2.1) r.2.2
    | SampleDistribution8.Uniform => get_scale_sample db seg ctx.track_index ctx.sample_key

/-- `Transform_32`: one entry of the output local pose. -/
structure Transform32 where
  rotation : Vec4
  translation : Vec4
  scale : Vec4
deriving DecidableEq

/-- `transform_set(rotation, translation, scale)`. -/
def transform_set (r t s : Vec4) : Transform32 := ⟨r, t, s⟩

/-- The transform written for one track index by the database samplers. -/
def sampled_transform (ops : FloatOps) (dist : SampleDistribution8) (ctx : SampleContext) (db : TrackDatabase) (seg : SegmentContext) (t : ℕ) : Transform32 :=
  let c := { ctx with track_index := t }
  transform_set (sample_rotation ops dist c db seg) (sample_translation dist c db seg)
    (sample_scale dist c db seg)

/-- Point update of the output local pose array. -/
def writePose (pose : ℕ → Transform32) (i : ℕ) (v : Transform32) : ℕ → Transform32 :=
  fun j => if j = i then v else pose j

/-- `acl_impl::sample_database(database, segment, sample_time,
transform_index, out_local_pose)` (sample_streams.h lines 1636-1668),
returning the updated pose array. -/
def sample_database (ops : FloatOps) (db : TrackDatabase) (seg : SegmentContext) (sample_time : ℚ) (transform_index : ℕ) (pose : ℕ → Transform32) : ℕ → Transform32 :=
  if seg.distribution = SampleDistribution8.Uniform then
    let key := get_uniform_sample_key db.m_num_samples_per_track db.m_sample_rate seg.num_samples_per_track seg.start_offset sample_time
    let ctx : SampleContext := ⟨transform_index, key, sample_time⟩
    writePose pose transform_index (sampled_transform ops SampleDistribution8.Uniform ctx db seg transform_index)
  else
    let ctx : SampleContext := ⟨transform_index, 0, sample_time⟩
    writePose pose transform_index (sampled_transform ops SampleDistribution8.Variable ctx db seg transform_index)

/-- The parent-walking loop of `sample_database_hierarchical`, with explicit
fuel; `none` models non-termination of the `while` loop within the given
fuel. -/
def hier_loop (ops : FloatOps) (dist : SampleDistribution8) (ctx : SampleContext) (db : TrackDatabase) (seg : SegmentContext) : ℕ → ℕ → (ℕ → Transform32) → Option (ℕ → Transform32)
  | fuel, current, pose =>
    if current = k_invalid_bone_index then some pose
    else
      match fuel with
      | 0 => none
      | fuel' + 1 =>
        hier_loop ops dist ctx db seg fuel' (db.get_parent_index current)
          (writePose pose current (sampled_transform ops dist ctx db seg current))

/-- The ancestor chain walked by the hierarchical sampler: the target, its
parent, and so on until the sentinel, with explicit fuel. -/
def ancestor_chain (db : TrackDatabase) : ℕ → ℕ → List ℕ
  | 0, _ => []
  | fuel + 1, current =>
    if current = k_invalid_bone_index then []
    else current :: ancestor_chain db fuel (db.get_parent_index current)

/-- `acl_impl::sample_database_hierarchical(database, segment, sample_time,
target_transform_index, out_local_pose)` (sample_streams.h lines
1727-1772), returning the updated pose array; the loop fuel 65536 covers
every chain of 16-bit transform indices.  The database itself is taken
immutably and is never written. -/
def sample_database_hierarchical (ops : FloatOps) (db : TrackDatabase) (seg : SegmentContext) (sample_time : ℚ) (target : ℕ) (pose : ℕ → Transform32) : Option (ℕ → Transform32) :=
  if seg.distribution = SampleDistribution8.Uniform then
    let key := get_uniform_sample_key db.m_num_samples_per_track db.m_sample_rate seg.num_samples_per_track seg.start_offset sample_time
    hier_loop ops SampleDistribution8.Uniform ⟨0, key, sample_time⟩ db seg 65536 target pose
  else
    hier_loop ops SampleDistribution8.Variable ⟨0, 0, sample_time⟩ db seg 65536 target pose

/-!
Database construction from a clip (track_database.h lines 143-266).
The `AnimationClip`, `AnimatedBone` and `RigidSkeleton` classes are not
part of the sources; they are modelled as plain sample providers, with
`has_scale` the value of `clip.has_scale(settings.constant_scale_threshold)`.
-/

/-- Modelled from the spec: the keyframe provider (section 6): per-bone
rotation/translation/scale sample sequences plus clip-wide metadata. -/
structure AnimationClip where
  num_bones : ℕ
  num_samples : ℕ
  sample_rate : ℚ
  duration : ℚ
  additive_format : AdditiveClipFormat8
  has_scale : Bool
  rotation_track : ℕ → ℕ → Vec4
  translation_track : ℕ → ℕ → Vec4
  scale_track : ℕ → ℕ → Vec4

/-- The per-transform SOA channels written by the constructor's copy loop,
in program order: base byte address paired with the per-sample value
(rotation x, y, z, w after `quat_normalize`, translation x, y, z, then the
scale channels when the clip has scale). -/
def transform_chans (ops : FloatOps) (clip : AnimationClip) (has_scale : Bool) (S t soa_start : ℕ) : List (ℕ × (ℕ → ℚ)) :=
  let r := soa_start + rotation_offset has_scale S t
  let tr := soa_start + translation_offset has_scale S t
  let sc := soa_start + scale_offset has_scale S t
  [(r + 0, fun j => (ops.quatNormalize (clip.rotation_track t j)).x),
   (r + offset_y S, fun j => (ops.quatNormalize (clip.rotation_track t j)).y),
   (r + offset_z S, fun j => (ops.quatNormalize (clip.rotation_track t j)).z),
   (r + offset_w S, fun j => (ops.quatNormalize (clip.rotation_track t j)).w),
   (tr + 0, fun j => (clip.translation_track t j).x),
   (tr + offset_y S, fun j => (clip.translation_track t j).y),
   (tr + offset_z S, fun j => (clip.translation_track t j).z)] ++
  (if has_scale then
    [(sc + 0, fun j => (clip.scale_track t j).x),
     (sc + offset_y S, fun j => (clip.scale_track t j).y),
     (sc + offset_z S, fun j => (clip.scale_track t j).z)]
   else [])

/-- The channel base addresses of one transform, in the same order. -/
def chan_bases (has_scale : Bool) (S t soa_start : ℕ) : List ℕ :=
  let r := soa_start + rotation_offset has_scale S t
  let tr := soa_start + translation_offset has_scale S t
  let sc := soa_start + scale_offset has_scale S t
  [r + 0, r + offset_y S, r + offset_z S, r + offset_w S,
   tr + 0, tr + offset_y S, tr + offset_z S] ++
  (if has_scale then [sc + 0, sc + offset_y S, sc + offset_z S] else [])

/-- One iteration of the constructor's copy loop (track_database.h lines
222-242): store sample `j` of every channel. -/
def copy_step (chans : List (ℕ × (ℕ → ℚ))) (d : ℕ → ℚ) (j : ℕ) : ℕ → ℚ :=
  chans.foldl (fun d c => writeData d (c.1 + 4 * j) (c.2 j)) d

/-- One iteration of the constructor's padding loop (track_database.h lines
244-263): each channel's slot `j` is overwritten with the channel's last
valid sample read back from the buffer. -/
def pad_step (bases : List ℕ) (last : ℕ) (d : ℕ → ℚ) (j : ℕ) : ℕ → ℚ :=
  bases.foldl (fun d a => writeData d (a + 4 * j) (d (a + 4 * last))) d

/-- The constructor's per-transform work: the copy loop over the valid
samples followed by the padding loop up to `num_simd_samples_per_track`. -/
def transform_pass (chans : List (ℕ × (ℕ → ℚ))) (n S : ℕ) (d : ℕ → ℚ) : ℕ → ℚ :=
  let d1 := (List.range n).foldl (copy_step chans) d
  (List.range' n (S - n)).foldl (pad_step (chans.map Prod.fst) (n - 1)) d1

/-- The constructor's per-segment work: the transform loop (track_database.h
lines 198-264). -/
def segment_pass (ops : FloatOps) (clip : AnimationClip) (seg : SegmentContext) (d : ℕ → ℚ) : ℕ → ℚ :=
  (List.range clip.num_bones).foldl
    (fun d t =>
      transform_pass
        (transform_chans ops clip clip.has_scale seg.num_simd_samples_per_track t seg.soa_start_offset)
        seg.num_samples_per_track seg.num_simd_samples_per_track d)
    d

/-- `track_database::track_database` (track_database.h lines 143-266):
fields from the clip, ranges zeroed by `memset`, and the segment copy loop
over the freshly allocated (uninitialized) buffer `init`. -/
def track_database_construct (ops : FloatOps) (clip : AnimationClip) (skeleton_parent : ℕ → ℕ) (segments : List SegmentContext) (init : ℕ → ℚ) : TrackDatabase :=
  { m_data := segments.foldl (fun d seg => segment_pass ops clip seg d) init,
    m_num_transforms := clip.num_bones,
    m_num_samples_per_track := clip.num_samples,
    m_sample_rate := clip.sample_rate,
    m_duration := clip.duration,
    m_rotation_format := RotationFormat8.Quat_128,
    m_translation_format := VectorFormat8.Vector3_96,
    m_scale_format := VectorFormat8.Vector3_96,
    m_has_scale := clip.has_scale,
    m_default_scale := get_default_scale clip.additive_format,
    m_ranges := fun _ => QvvfRanges.zero,
    m_parent := skeleton_parent }

/-!
Helper lemmas.
-/

theorem u32_eq_of_lt (x : ℕ) (h : x < 4294967296) : u32 x = x := Nat.mod_eq_of_lt h

theorem num_components_bounds (hs : Bool) :
    7 ≤ get_num_components_per_transform hs ∧ get_num_components_per_transform hs ≤ 10 := by
  cases hs <;> simp [get_num_components_per_transform]

theorem writeData_eq (d : ℕ → ℚ) (off : ℕ) (v : ℚ) : writeData d off v off = v := by
  simp [writeData]

theorem writeData_ne (d : ℕ → ℚ) (off o : ℕ) (v : ℚ) (h : o ≠ off) : writeData d off v o = d o := by
  simp [writeData, h]

/-- Concrete identity-float-op bundle used by witnesses. -/
def opsId : FloatOps := ⟨id, id⟩

/-!
Claim theorems.
-/

/-- Claim C1 (code bug): `get_num_components_per_transform` as written
returns 7 when `has_scale` is true and 10 when it is false — the exact
opposite of the claimed (and source-commented) 10-with-scale /
7-without-scale split. -/
theorem C1_num_components_eval :
    get_num_components_per_transform true = 7 ∧ get_num_components_per_transform false = 10 := by
  decide

/-- Claim C7: for every segment, transform and sample index, writing back a
value just read is the identity on the whole database — the buffer (hence
every other slot, and a subsequent `get`) is unchanged bit for bit — for
rotation, translation and scale alike. -/
theorem C7_set_get_roundtrip (db : TrackDatabase) (seg : SegmentContext) (t i : ℕ) :
    db.set_rotation (db.get_rotation seg t i) seg t i = db ∧
    db.set_translation (db.get_translation seg t i) seg t i = db ∧
    db.set_scale (db.get_scale seg t i) seg t i = db := by
  refine ⟨?_, ?_, ?_⟩
  · unfold TrackDatabase.set_rotation TrackDatabase.get_rotation
    cases db
    simp only [vector_set, TrackDatabase.mk.injEq, and_true, true_and]
    funext o
    simp only [writeData]
    split_ifs with h1 h2 h3 h4 <;> simp_all
  · unfold TrackDatabase.set_translation TrackDatabase.get_translation
    cases db
    simp only [vector_set, TrackDatabase.mk.injEq, and_true, true_and]
    funext o
    simp only [writeData]
    split_ifs with h1 h2 h3 <;> simp_all
  · unfold TrackDatabase.set_scale TrackDatabase.get_scale
    by_cases hs : db.m_has_scale = false
    · simp [hs]
    · cases db
      simp only [Bool.not_eq_false] at hs
      simp only [vector_set, hs, Bool.true_eq_false, if_false, TrackDatabase.mk.injEq, and_true,
        true_and]
      funext o
      simp only [writeData]
      split_ifs with h1 h2 h3 <;> simp_all

/-- Claim C8: when the clip has no scale channel, `get_scale` on the
constructed database returns the clip's default scale (identity or zero
per additive mode) for every segment, transform and sample index, and
`set_scale` is a no-op leaving the database (including its buffer bytes)
unchanged. -/
theorem C8_default_scale (ops : FloatOps) (clip : AnimationClip) (sk : ℕ → ℕ)
    (segments : List SegmentContext) (init : ℕ → ℚ) (h : clip.has_scale = false) :
    (∀ (seg : SegmentContext) (t i : ℕ),
      (track_database_construct ops clip sk segments init).get_scale seg t i =
        get_default_scale clip.additive_format) ∧
    (∀ (v : Vec4) (seg : SegmentContext) (t i : ℕ),
      (track_database_construct ops clip sk segments init).set_scale v seg t i =
        track_database_construct ops clip sk segments init) := by
  constructor
  · intro seg t i
    unfold TrackDatabase.get_scale
    simp [track_database_construct, h]
  · intro v seg t i
    unfold TrackDatabase.set_scale
    simp [track_database_construct, h]

/-- Concrete one-bone, one-sample clip without scale, used by witnesses. -/
def clipNoScale : AnimationClip :=
  ⟨1, 1, 30, 0, AdditiveClipFormat8.None, false,
   fun _ _ => ⟨1, 2, 3, 4⟩, fun _ _ => ⟨5, 6, 7, 0⟩, fun _ _ => ⟨0, 0, 0, 0⟩⟩

/-- Concrete single segment (2 SIMD slots, 1 valid sample) used by witnesses. -/
def segA : SegmentContext :=
  ⟨0, 1, 0, 1, 2, 0, 0, SampleDistribution8.Uniform, false, false, false, fun _ => QvvfRanges.zero⟩

/-- Witness for claim C8 at a concrete no-scale clip: `get_scale` yields the
identity default scale and `set_scale` is a no-op. -/
theorem C8_default_scale_witness :
    clipNoScale.has_scale = false ∧
    (track_database_construct opsId clipNoScale (fun _ => 65535) [segA] (fun _ => 0)).get_scale segA 0 0 =
      get_default_scale AdditiveClipFormat8.None ∧
    (track_database_construct opsId clipNoScale (fun _ => 65535) [segA] (fun _ => 0)).set_scale ⟨9, 9, 9, 9⟩ segA 0 0 =
      track_database_construct opsId clipNoScale (fun _ => 65535) [segA] (fun _ => 0) := by
  refine ⟨rfl, ?_, ?_⟩
  · exact (C8_default_scale opsId clipNoScale (fun _ => 65535) [segA] (fun _ => 0) rfl).1 segA 0 0
  · exact (C8_default_scale opsId clipNoScale (fun _ => 65535) [segA] (fun _ => 0) rfl).2 ⟨9, 9, 9, 9⟩ segA 0 0

/-- Under a no-overflow bound, every uint32 quantity in the SOA addressing
identity reduces to its exact value. -/
theorem offsets_reduced (hs : Bool) (S t : ℕ)
    (H : 4 * S * get_num_components_per_transform hs * (t + 1) + 40 * S < 4294967296) :
    component_size S = 4 * S ∧ offset_y S = 4 * S ∧ offset_z S = 8 * S ∧ offset_w S = 12 * S ∧
    rotation_offset hs S t = t * (4 * S * get_num_components_per_transform hs) ∧
    translation_offset hs S t = t * (4 * S * get_num_components_per_transform hs) + 16 * S ∧
    scale_offset hs S t = t * (4 * S * get_num_components_per_transform hs) + 28 * S := by
  obtain ⟨hC7, hC10⟩ := num_components_bounds hs
  set C := get_num_components_per_transform hs with hCdef
  have hprod : 4 * S * C ≤ 4 * S * C * (t + 1) := Nat.le_mul_of_pos_right _ (Nat.succ_pos t)
  have hS40 : 40 * S ≤ 4 * S * C * (t + 1) + 40 * S := Nat.le_add_left _ _
  have htprod : t * (4 * S * C) + 40 * S ≤ 4 * S * C * (t + 1) + 40 * S := by
    have : t * (4 * S * C) ≤ (t + 1) * (4 * S * C) :=
      Nat.mul_le_mul_right _ (Nat.le_succ t)
    calc t * (4 * S * C) + 40 * S ≤ (t + 1) * (4 * S * C) + 40 * S := by omega
      _ = 4 * S * C * (t + 1) + 40 * S := by ring_nf
  have h4S : 4 * S < 4294967296 := by omega
  have h8S : 8 * S < 4294967296 := by omega
  have h12S : 12 * S < 4294967296 := by omega
  have h16S : 16 * S < 4294967296 := by omega
  have h4SC : 4 * S * C < 4294967296 := by omega
  have hro : t * (4 * S * C) < 4294967296 := by omega
  have htro : t * (4 * S * C) + 16 * S < 4294967296 := by omega
  have hsco : t * (4 * S * C) + 16 * S + 12 * S < 4294967296 := by omega
  have hcs : component_size S = 4 * S := u32_eq_of_lt _ h4S
  have hoy : offset_y S = 4 * S := by
    unfold offset_y
    rw [hcs]
    rw [u32_eq_of_lt (0 + 4 * S) (by omega)]
    omega
  have hoz : offset_z S = 8 * S := by
    unfold offset_z
    rw [hoy, hcs]
    rw [u32_eq_of_lt (4 * S + 4 * S) (by omega)]
    omega
  have how : offset_w S = 12 * S := by
    unfold offset_w
    rw [hoz, hcs]
    rw [u32_eq_of_lt (8 * S + 4 * S) (by omega)]
    omega
  have hts : transform_size hs S = 4 * S * C := by
    unfold transform_size
    rw [hcs, ← hCdef]
    exact u32_eq_of_lt _ h4SC
  have hroe : rotation_offset hs S t = t * (4 * S * C) := by
    unfold rotation_offset
    rw [hts]
    exact u32_eq_of_lt _ hro
  have htroe : translation_offset hs S t = t * (4 * S * C) + 16 * S := by
    unfold translation_offset
    rw [hroe, hcs]
    rw [u32_eq_of_lt (4 * S * 4) (by omega)]
    have : 4 * S * 4 = 16 * S := by ring
    rw [this]
    exact u32_eq_of_lt _ htro
  have hscoe : scale_offset hs S t = t * (4 * S * C) + 28 * S := by
    unfold scale_offset
    rw [htroe, hcs]
    rw [u32_eq_of_lt (4 * S * 3) (by omega)]
    have h3 : 4 * S * 3 = 12 * S := by ring
    rw [h3]
    rw [u32_eq_of_lt _ hsco]
    omega
  exact ⟨hcs, hoy, hoz, how, hroe, htroe, hscoe⟩

/-- The byte offsets of the scale channel of one (segment, transform):
exactly the slots written by `set_scale` and read by `get_scale`. -/
def is_scale_slot (hs : Bool) (S t soa_start o : ℕ) : Prop :=
  ∃ j, j < S ∧ (o = soa_start + scale_offset hs S t + 0 + 4 * j ∨
    o = soa_start + scale_offset hs S t + offset_y S + 4 * j ∨
    o = soa_start + scale_offset hs S t + offset_z S + 4 * j)

/-- Claim C5: the normalized-path scale sampler over the track database
returns the translation-channel value of (segment, transform, sample)
remapped by the scale range descriptors, and its result does not depend on
the stored scale-channel samples: rewriting the scale channel arbitrarily
(all other slots kept) leaves the result unchanged. -/
theorem C5_scale_sample_reads_translation (db : TrackDatabase) (seg : SegmentContext) (t i : ℕ) :
    (get_scale_sample db seg t i =
      (let p0 := db.get_translation seg t i
       let p1 := if (seg.ranges t).are_scales_normalized then
          vector_mul_add p0 (seg.ranges t).scale_extent (seg.ranges t).scale_min
        else p0
       if (db.get_range t).are_scales_normalized then
         vector_mul_add p1 (db.get_range t).scale_extent (db.get_range t).scale_min
       else p1)) ∧
    (∀ d' : ℕ → ℚ,
      (∀ o, ¬ is_scale_slot db.m_has_scale seg.num_simd_samples_per_track t seg.soa_start_offset o →
        d' o = db.m_data o) →
      i < seg.num_simd_samples_per_track →
      4 * seg.num_simd_samples_per_track * get_num_components_per_transform db.m_has_scale * (t + 1) +
        40 * seg.num_simd_samples_per_track < 4294967296 →
      get_scale_sample { db with m_data := d' } seg t i = get_scale_sample db seg t i) := by
  constructor
  · rfl
  · intro d' hagree hi H
    set S := seg.num_simd_samples_per_track with hS
    obtain ⟨hcs, hoy, hoz, how, hroe, htroe, hscoe⟩ := offsets_reduced db.m_has_scale S t H
    have hread : ∀ c, c = 0 ∨ c = offset_y S ∨ c = offset_z S →
        d' (seg.soa_start_offset + translation_offset db.m_has_scale S t + c + 4 * i) =
        db.m_data (seg.soa_start_offset + translation_offset db.m_has_scale S t + c + 4 * i) := by
      intro c hc
      apply hagree
      intro hslot
      obtain ⟨j, hj, hor⟩ := hslot
      have hcv : c ≤ 8 * S := by
        rcases hc with h | h | h <;> simp only [h, hoy, hoz] <;> omega
      rcases hor with h | h | h <;>
        · simp only [htroe, hscoe, hoy, hoz] at h
          omega
    show get_scale_sample { db with m_data := d' } seg t i = get_scale_sample db seg t i
    unfold get_scale_sample TrackDatabase.get_translation TrackDatabase.get_range
    dsimp only
    rw [← hS]
    rw [hread 0 (Or.inl rfl), hread (offset_y S) (Or.inr (Or.inl rfl)),
      hread (offset_z S) (Or.inr (Or.inr rfl))]

/-- Component-wise extensionality for `Vec4`. -/
theorem Vec4.ext4 (a b : Vec4) (hx : a.x = b.x) (hy : a.y = b.y) (hz : a.z = b.z)
    (hw : a.w = b.w) : a = b := by
  cases a
  cases b
  simp_all

/-- Concrete database used by the C5 witness: no scale channel, zero buffer. -/
def dbW5 : TrackDatabase :=
  ⟨fun _ => 0, 1, 1, 30, 0, RotationFormat8.Quat_128, VectorFormat8.Vector3_96,
   VectorFormat8.Vector3_96, false, ⟨1, 1, 1, 1⟩, fun _ => QvvfRanges.zero, fun _ => 65535⟩

/-- A buffer differing from `dbW5`'s only at byte offset 28, the first slot
of the (segment 0, transform 0) scale channel. -/
def dW5 : ℕ → ℚ := fun o => if o = 28 then 42 else 0

/-- Concrete single-sample segment at buffer start used by witnesses. -/
def segW5 : SegmentContext :=
  ⟨0, 1, 0, 1, 1, 40, 0, SampleDistribution8.Uniform, false, false, false, fun _ => QvvfRanges.zero⟩

/-- Witness for claim C5: rewriting the stored scale channel does not change
the normalized-path scale sample. -/
theorem C5_witness :
    get_scale_sample { dbW5 with m_data := dW5 } segW5 0 0 = get_scale_sample dbW5 segW5 0 0 := by
  apply (C5_scale_sample_reads_translation dbW5 segW5 0 0).2
  · intro o h
    show (if o = 28 then (42 : ℚ) else 0) = 0
    by_cases ho : o = 28
    · exfalso
      apply h
      refine ⟨0, by decide, Or.inl ?_⟩
      rw [ho]
      decide
    · simp [ho]
  · decide
  · decide

/-- Per-transform range state with normalized translations and rotations
against the trivial range (min 0, extent 1), used by C2's instances. -/
def rangesC2 : QvvfRanges :=
  { QvvfRanges.zero with
    rotation_extent := ⟨1, 1, 1, 1⟩,
    translation_extent := ⟨1, 1, 1, 1⟩,
    are_rotations_normalized := true,
    are_translations_normalized := true }

/-- Concrete raw-and-mutable database for C2: the buffer stores the byte
offset itself, so different segments hold different raw samples. -/
def rawC2 : TrackDatabase :=
  ⟨fun o => (o : ℚ), 1, 2, 30, 0, RotationFormat8.Quat_128, VectorFormat8.Vector3_96,
   VectorFormat8.Vector3_96, false, ⟨1, 1, 1, 1⟩, fun _ => rangesC2, fun _ => 65535⟩

/-- First single-sample segment of `rawC2` (SOA bytes 0-39). -/
def segC2a : SegmentContext :=
  ⟨0, 1, 0, 1, 1, 40, 0, SampleDistribution8.Uniform, false, false, false, fun _ => rangesC2⟩

/-- Second single-sample segment of `rawC2` (SOA bytes 40-79). -/
def segC2b : SegmentContext :=
  ⟨1, 1, 1, 1, 1, 40, 40, SampleDistribution8.Uniform, false, false, false, fun _ => rangesC2⟩

/-- Counterexample for claim C2: the constant-bit-rate decayed translation
sample reads raw sample 0 of the queried segment, so two segments with
different raw first samples give different results — the claimed
independence from the queried segment is false. -/
theorem C2_counterexample :
    get_decayed_translation_sample rawC2 rawC2 segC2a 0 0 0 ≠
      get_decayed_translation_sample rawC2 rawC2 segC2b 0 0 0 := by
  have e1 : get_decayed_translation_sample rawC2 rawC2 segC2a 0 0 0 = ⟨16, 20, 24, 0⟩ := by
    norm_num [get_decayed_translation_sample, is_constant_bit_rate, rawC2, segC2a, rangesC2,
      QvvfRanges.zero, TrackDatabase.get_translation, TrackDatabase.get_range, translation_offset,
      rotation_offset, transform_size, component_size, get_num_components_per_transform, offset_y,
      offset_z, u32, vector_set, normalize_sample, normalize_scalar, decay_vector3_u48,
      decay_scalar_uN, roundQ, vector_mul_add, vector_zero_32, Vec4.mk.injEq]
  have e2 : get_decayed_translation_sample rawC2 rawC2 segC2b 0 0 0 = ⟨56, 60, 64, 0⟩ := by
    norm_num [get_decayed_translation_sample, is_constant_bit_rate, rawC2, segC2b, rangesC2,
      QvvfRanges.zero, TrackDatabase.get_translation, TrackDatabase.get_range, translation_offset,
      rotation_offset, transform_size, component_size, get_num_components_per_transform, offset_y,
      offset_z, u32, vector_set, normalize_sample, normalize_scalar, decay_vector3_u48,
      decay_scalar_uN, roundQ, vector_mul_add, vector_zero_32, Vec4.mk.injEq]
  rw [e1, e2]
  simp [Vec4.mk.injEq]

/-- Claim C2 (amended): at the constant bit rate the decayed translation
sample equals raw sample 0 of the queried segment's channel, re-normalized
against the clip range, decayed through Vec48, with only the clip range
re-applied (the segment range never is); the result is independent of
`sample_index` but reads the queried segment's own raw sample 0.  The
analogous property holds for the decayed rotation sample, whose raw sample
is first converted from the raw to the mutable rotation format. -/
theorem C2_constant_bit_rate_amended (ops : FloatOps) (raw mutDB : TrackDatabase)
    (seg : SegmentContext) (t i : ℕ)
    (htr : (mutDB.get_range t).are_translations_normalized = true)
    (hrot : (mutDB.get_range t).are_rotations_normalized = true) :
    (get_decayed_translation_sample raw mutDB seg t i 0 =
      vector_mul_add
        (decay_vector3_u48 (normalize_sample (raw.get_translation seg t 0)
          (mutDB.get_range t).translation_min (mutDB.get_range t).translation_extent))
        (mutDB.get_range t).translation_extent (mutDB.get_range t).translation_min) ∧
    (∀ j, get_decayed_translation_sample raw mutDB seg t i 0 =
      get_decayed_translation_sample raw mutDB seg t j 0) ∧
    (get_decayed_rotation_sample ops raw mutDB seg t i 0 =
      rotation_to_quat_32 ops
        (vector_mul_add
          (decay_vector3_u48 (normalize_sample
            (convert_rotation (raw.get_rotation seg t 0) raw.m_rotation_format
              mutDB.m_rotation_format)
            (mutDB.get_range t).rotation_min (mutDB.get_range t).rotation_extent))
          (mutDB.get_range t).rotation_extent (mutDB.get_range t).rotation_min)
        mutDB.m_rotation_format) ∧
    (∀ j, get_decayed_rotation_sample ops raw mutDB seg t i 0 =
      get_decayed_rotation_sample ops raw mutDB seg t j 0) := by
  refine ⟨?_, ?_, ?_, ?_⟩
  · simp [get_decayed_translation_sample, is_constant_bit_rate, htr]
  · intro j
    simp [get_decayed_translation_sample, is_constant_bit_rate]
  · simp [get_decayed_rotation_sample, is_constant_bit_rate, htr, hrot]
  · intro j
    simp [get_decayed_rotation_sample, is_constant_bit_rate]

/-- Witness for the amended claim C2 at a concrete normalized database:
the constant-bit-rate decayed translation is independent of the sample
index. -/
theorem C2_amended_witness :
    (rawC2.get_range 0).are_translations_normalized = true ∧
    get_decayed_translation_sample rawC2 rawC2 segC2a 0 3 0 =
      get_decayed_translation_sample rawC2 rawC2 segC2a 0 7 0 := by
  refine ⟨by decide, ?_⟩
  exact (C2_constant_bit_rate_amended opsId rawC2 rawC2 segC2a 0 3 (by decide) (by decide)).2.1 7

/-- Claim C3: at the raw bit rate (index 18, value 32) the decayed sample is
the raw-database sample converted to the mutable format with neither range
applied: the identity for translations, and for rotations the raw-to-
mutable rotation conversion, which is lossless for FullQuat to
DropWQuat96 when the raw quaternion is unit with w >= 0. -/
theorem C3_raw_bit_rate (ops : FloatOps) (raw mutDB : TrackDatabase) (seg : SegmentContext) (t i : ℕ) :
    (get_decayed_translation_sample raw mutDB seg t i 18 = raw.get_translation seg t i) ∧
    (get_decayed_rotation_sample ops raw mutDB seg t i 18 =
      rotation_to_quat_32 ops
        (convert_rotation (raw.get_rotation seg t i) raw.m_rotation_format mutDB.m_rotation_format)
        mutDB.m_rotation_format) ∧
    (raw.m_rotation_format = RotationFormat8.Quat_128 →
      mutDB.m_rotation_format = RotationFormat8.QuatDropW_96 →
      0 ≤ (raw.get_rotation seg t i).w →
      quat_norm_sq (raw.get_rotation seg t i) = 1 →
      SpecFromPositiveW ops (raw.get_rotation seg t i) →
      get_decayed_rotation_sample ops raw mutDB seg t i 18 = raw.get_rotation seg t i) := by
  refine ⟨?_, ?_, ?_⟩
  · simp [get_decayed_translation_sample, is_constant_bit_rate, is_raw_bit_rate, k_highest_bit_rate]
  · simp [get_decayed_rotation_sample, is_constant_bit_rate, is_raw_bit_rate, k_highest_bit_rate]
  · intro hraw hmut hw hunit hspec
    set v := raw.get_rotation seg t i with hv
    have hconv : convert_rotation v raw.m_rotation_format mutDB.m_rotation_format = v := by
      rw [hraw, hmut]
      simp [convert_rotation, not_lt.mpr hw]
    have hstep : get_decayed_rotation_sample ops raw mutDB seg t i 18 =
        rotation_to_quat_32 ops v mutDB.m_rotation_format := by
      simp [get_decayed_rotation_sample, is_constant_bit_rate, is_raw_bit_rate,
        k_highest_bit_rate, ← hv, hconv]
    rw [hstep, hmut]
    show ops.quatFromPositiveW v = v
    obtain ⟨hx, hy, hz, hw', hsq⟩ := hspec
    have hmax : max 0 (1 - (v.x ^ 2 + v.y ^ 2 + v.z ^ 2)) = v.w ^ 2 := by
      unfold quat_norm_sq at hunit
      have : 1 - (v.x ^ 2 + v.y ^ 2 + v.z ^ 2) = v.w ^ 2 := by linarith
      rw [this]
      exact max_eq_right (sq_nonneg _)
    rw [hmax] at hsq
    have hweq : (ops.quatFromPositiveW v).w = v.w := by
      rcases sq_eq_sq_iff_eq_or_eq_neg.mp hsq with h | h
      · exact h
      · have : v.w ≤ 0 := by linarith [hw', h.le]
        have hw0 : v.w = 0 := le_antisymm this hw
        rw [h, hw0, neg_zero]
    exact Vec4.ext4 _ _ hx hy hz hweq

/-- Concrete raw database for the C3 witness: the (segment 0, transform 0)
rotation sample 0 is the unit quaternion (3/5, 0, 4/5, 0) with w = 0. -/
def rawC3 : TrackDatabase :=
  ⟨fun o => if o = 0 then 3 / 5 else if o = 8 then 4 / 5 else 0, 1, 1, 30, 0,
   RotationFormat8.Quat_128, VectorFormat8.Vector3_96, VectorFormat8.Vector3_96, false,
   ⟨1, 1, 1, 1⟩, fun _ => QvvfRanges.zero, fun _ => 65535⟩

/-- The C3 witness's mutable database: same state with a drop-w rotation
format. -/
def mutC3 : TrackDatabase :=
  { rawC3 with m_rotation_format := RotationFormat8.QuatDropW_96 }

/-- Witness for claim C3 at a concrete unit quaternion with w = 0: the
raw-bit-rate decayed rotation reproduces the raw sample exactly. -/
theorem C3_raw_bit_rate_witness :
    0 ≤ (rawC3.get_rotation segW5 0 0).w ∧
    quat_norm_sq (rawC3.get_rotation segW5 0 0) = 1 ∧
    get_decayed_rotation_sample opsId rawC3 mutC3 segW5 0 0 18 = rawC3.get_rotation segW5 0 0 := by
  have hv : rawC3.get_rotation segW5 0 0 = ⟨3 / 5, 0, 4 / 5, 0⟩ := by
    norm_num [TrackDatabase.get_rotation, rawC3, segW5, rotation_offset, transform_size,
      component_size, get_num_components_per_transform, offset_y, offset_z, offset_w, u32,
      vector_set, Vec4.mk.injEq]
  have hsq : quat_norm_sq (rawC3.get_rotation segW5 0 0) = 1 := by
    rw [hv]
    norm_num [quat_norm_sq]
  refine ⟨by rw [hv], hsq, ?_⟩
  apply (C3_raw_bit_rate opsId rawC3 mutC3 segW5 0 0).2.2 rfl rfl (by rw [hv]) hsq
  refine ⟨rfl, rfl, rfl, ?_, ?_⟩
  · show (0 : ℚ) ≤ (rawC3.get_rotation segW5 0 0).w
    rw [hv]
  · show (rawC3.get_rotation segW5 0 0).w ^ 2 = _
    rw [hv]
    norm_num

/-- Per-transform range state for C4: scale channels normalized (min 1,
extent 2), translation channels NOT normalized. -/
def rangesC4 : QvvfRanges :=
  { QvvfRanges.zero with
    scale_min := ⟨1, 1, 1, 0⟩,
    scale_extent := ⟨2, 2, 2, 0⟩,
    are_scales_normalized := true,
    are_translations_normalized := false }

/-- Concrete mutable database for C4: scale present, every stored float
1/2, ranges `rangesC4`. -/
def mutC4 : TrackDatabase :=
  ⟨fun _ => 1 / 2, 1, 1, 30, 0, RotationFormat8.Quat_128, VectorFormat8.Vector3_96,
   VectorFormat8.Vector3_96, true, ⟨1, 1, 1, 1⟩, fun _ => rangesC4, fun _ => 65535⟩

/-- Concrete segment for C4 with the same range state. -/
def segC4 : SegmentContext :=
  ⟨0, 1, 0, 1, 1, 28, 0, SampleDistribution8.Uniform, false, false, true, fun _ => rangesC4⟩

/-- Claim C4 (code bug): at an intermediate bit rate the decayed scale path
gates the range applications on the translation normalization flags
(sample_streams.h lines 947-948) instead of the scale flags.  At a state
whose scale channels are normalized but whose translation channels are
not, the code applies no range at all (returning the bare decayed value
4/7), while the claim requires both scale ranges to be applied. -/
theorem C4_scale_flags_eval :
    (mutC4.get_range 0).are_scales_normalized = true ∧
    (segC4.ranges 0).are_scales_normalized = true ∧
    get_decayed_scale_sample mutC4 mutC4 segC4 0 0 1 = ⟨4 / 7, 4 / 7, 4 / 7, 0⟩ ∧
    get_decayed_scale_sample mutC4 mutC4 segC4 0 0 1 ≠
      vector_mul_add
        (vector_mul_add
          (decay_vector3_uXX (mutC4.get_scale segC4 0 0) (get_num_bits_at_bit_rate 1))
          (segC4.ranges 0).scale_extent (segC4.ranges 0).scale_min)
        (mutC4.get_range 0).scale_extent (mutC4.get_range 0).scale_min := by
  have hscale : mutC4.get_scale segC4 0 0 = ⟨1 / 2, 1 / 2, 1 / 2, 0⟩ := by
    norm_num [TrackDatabase.get_scale, mutC4, segC4, scale_offset, translation_offset,
      rotation_offset, transform_size, component_size, get_num_components_per_transform,
      offset_y, offset_z, u32, vector_set, Vec4.mk.injEq]
  have hbits : get_num_bits_at_bit_rate 1 = 3 := rfl
  have hf1 : (mutC4.get_range 0).are_translations_normalized = false := rfl
  have hf2 : (segC4.ranges 0).are_translations_normalized = false := rfl
  have hsm : (mutC4.get_range 0).scale_min = ⟨1, 1, 1, 0⟩ := rfl
  have hse : (mutC4.get_range 0).scale_extent = ⟨2, 2, 2, 0⟩ := rfl
  have hsm2 : (segC4.ranges 0).scale_min = ⟨1, 1, 1, 0⟩ := rfl
  have hse2 : (segC4.ranges 0).scale_extent = ⟨2, 2, 2, 0⟩ := rfl
  have e1 : get_decayed_scale_sample mutC4 mutC4 segC4 0 0 1 = ⟨4 / 7, 4 / 7, 4 / 7, 0⟩ := by
    norm_num [get_decayed_scale_sample, is_constant_bit_rate, is_raw_bit_rate,
      k_highest_bit_rate, hscale, hbits, hf1, hf2, decay_vector3_uXX, decay_scalar_uN, roundQ,
      Vec4.mk.injEq]
  have e2 :
      vector_mul_add
        (vector_mul_add
          (decay_vector3_uXX (mutC4.get_scale segC4 0 0) (get_num_bits_at_bit_rate 1))
          (segC4.ranges 0).scale_extent (segC4.ranges 0).scale_min)
        (mutC4.get_range 0).scale_extent (mutC4.get_range 0).scale_min =
        ⟨37 / 7, 37 / 7, 37 / 7, 0⟩ := by
    norm_num [hscale, hbits, hsm, hse, hsm2, hse2, decay_vector3_uXX, decay_scalar_uN, roundQ,
      vector_mul_add, Vec4.mk.injEq]
  refine ⟨rfl, rfl, e1, ?_⟩
  rw [e1, e2]
  norm_num [Vec4.mk.injEq]

theorem usub32_of_le (a b : ℕ) (hb : b ≤ a) (ha : a < 4294967296) : usub32 a b = a - b := by
  unfold usub32
  have h : a + (4294967296 - b) = (a - b) + 4294967296 := by omega
  rw [h, Nat.add_mod_right]
  exact Nat.mod_eq_of_lt (by omega)

theorem usub32_of_lt (a b : ℕ) (hab : a < b) (hb : b < 4294967296) :
    usub32 a b = a + (4294967296 - b) := by
  unfold usub32
  exact Nat.mod_eq_of_lt (by omega)

/-- The claim's predicted uniform sample key: the clip key nearest to
sample_time * sample_rate, offset by the segment's start offset and
clamped to the segment bounds. -/
def c9_expected (num_clip : ℕ) (rate : ℚ) (num_seg start : ℕ) (t : ℚ) : ℕ :=
  min (min (roundQ (t * rate)).toNat (num_clip - 1) - start) (num_seg - 1)

/-- Claim C9 (amended): for a uniform segment, `get_uniform_sample_key`
always returns a key within [0, num_samples_per_track_in_segment), equal
to the nearest clip key offset by the segment start and clamped to the
segment bounds whenever floor(sample_time * sample_rate) does not pass the
segment's window; and uniform-distribution pose sampling evaluates exactly
that one key with no interpolation. -/
theorem C9_uniform_key_amended (num_clip : ℕ) (rate t : ℚ) (num_seg start : ℕ)
    (hn : 1 ≤ num_seg) (hle : start + num_seg ≤ num_clip) (hB : num_clip < 4294967296)
    (hpos : 0 ≤ t * rate) (hf : (Int.floor (t * rate)).toNat < start + num_seg) :
    (get_uniform_sample_key num_clip rate num_seg start t =
      c9_expected num_clip rate num_seg start t ∧
     get_uniform_sample_key num_clip rate num_seg start t < num_seg) ∧
    (∀ (db : TrackDatabase) (seg : SegmentContext) (ctx : SampleContext),
      (db.get_range ctx.track_index).is_translation_default = false →
      (db.get_range ctx.track_index).is_translation_constant = false →
      sample_translation SampleDistribution8.Uniform ctx db seg =
        get_translation_sample db seg ctx.track_index ctx.sample_key) ∧
    (∀ (ops : FloatOps) (db : TrackDatabase) (seg : SegmentContext) (time : ℚ) (T : ℕ)
        (pose : ℕ → Transform32),
      seg.distribution = SampleDistribution8.Uniform →
      (db.get_range T).is_translation_default = false →
      (db.get_range T).is_translation_constant = false →
      (sample_database ops db seg time T pose T).translation =
        get_translation_sample db seg T
          (get_uniform_sample_key db.m_num_samples_per_track db.m_sample_rate
            seg.num_samples_per_track seg.start_offset time)) := by
  constructor
  · set s := t * rate with hs
    have hfZ0 : 0 ≤ ⌊s⌋ := Int.floor_nonneg.mpr hpos
    have hcast : ((⌊s⌋.toNat : ℤ)) = ⌊s⌋ := Int.toNat_of_nonneg hfZ0
    set f := (⌊s⌋).toNat with hfdef
    have ha0 : 0 ≤ s - (⌊s⌋ : ℚ) := sub_nonneg.mpr (Int.floor_le s)
    have ha1 : s - (⌊s⌋ : ℚ) < 1 := by
      have := Int.lt_floor_add_one s
      linarith
    have hfnc : f < num_clip := by omega
    have hk0 : min f (num_clip - 1) = f := by omega
    have hfu : u32 f = f := Nat.mod_eq_of_lt (by omega)
    have hsu : u32 start = start := Nat.mod_eq_of_lt (by omega)
    have hk1v : min (f + 1) (num_clip - 1) = if f + 1 ≤ num_clip - 1 then f + 1 else f := by
      split_ifs with h <;> omega
    have hround : roundQ s = ⌊s⌋ + (if s - (⌊s⌋ : ℚ) < 1 / 2 then 0 else 1) := by
      unfold roundQ
      split_ifs with hb
      · simp only [add_zero]
        rw [Int.floor_eq_iff]
        constructor
        · linarith [Int.floor_le s]
        · linarith
      · rw [Int.floor_eq_iff]
        constructor
        · push_cast
          linarith [not_lt.mp hb]
        · push_cast
          linarith
    have hroundN : (roundQ s).toNat = f + (if s - (⌊s⌋ : ℚ) < 1 / 2 then 0 else 1) := by
      rw [hround]
      split_ifs <;> omega
    simp only [get_uniform_sample_key, find_linear_interpolation_samples_with_sample_rate,
      c9_expected]
    rw [← hs]
    rw [← hfdef]
    rw [hk0, hfu, hsu, hroundN]
    by_cases hb : s - (⌊s⌋ : ℚ) < 1 / 2
    · simp only [if_pos hb]
      by_cases hfs : f < start
      · rw [usub32_of_lt f start hfs (by omega)]
        simp only [if_pos (show num_seg ≤ f + (4294967296 - start) by omega)]
        have hk1 : (f + 1) ⊓ (num_clip - 1) = f + 1 := by omega
        rw [hk1, show u32 (f + 1) = f + 1 from Nat.mod_eq_of_lt (by omega)]
        by_cases hfs1 : f + 1 < start
        · rw [usub32_of_lt (f + 1) start hfs1 (by omega)]
          simp only [if_pos (show num_seg ≤ f + 1 + (4294967296 - start) by omega)]
          simp only [if_true, if_neg (show ¬(1 : ℚ) = 0 by norm_num)]
          omega
        · rw [usub32_of_le (f + 1) start (by omega) (by omega)]
          simp only [if_neg (show ¬ num_seg ≤ f + 1 - start by omega)]
          simp only [if_true, if_neg (show ¬(1 : ℚ) = 0 by norm_num)]
          omega
      · rw [usub32_of_le f start (by omega) (by omega)]
        simp only [if_neg (show ¬ num_seg ≤ f - start by omega)]
        rw [hk1v]
        by_cases h1 : f + 1 ≤ num_clip - 1
        · simp only [if_pos h1]
          rw [show u32 (f + 1) = f + 1 from Nat.mod_eq_of_lt (by omega),
            usub32_of_le (f + 1) start (by omega) (by omega)]
          by_cases h2 : num_seg ≤ f + 1 - start
          · simp only [if_pos h2]
            simp only [if_true, if_neg (show ¬(1 : ℚ) = 0 by norm_num)]
            omega
          · simp only [if_neg h2]
            simp only [if_true, if_neg (show ¬(1 : ℚ) = 0 by norm_num)]
            omega
        · simp only [if_neg h1]
          rw [show u32 f = f from Nat.mod_eq_of_lt (by omega),
            usub32_of_le f start (by omega) (by omega)]
          simp only [if_neg (show ¬ num_seg ≤ f - start by omega)]
          simp only [if_true, if_neg (show ¬(1 : ℚ) = 0 by norm_num)]
          omega
    · simp only [if_neg hb]
      by_cases hfs : f < start
      · rw [usub32_of_lt f start hfs (by omega)]
        simp only [if_pos (show num_seg ≤ f + (4294967296 - start) by omega)]
        have hk1 : (f + 1) ⊓ (num_clip - 1) = f + 1 := by omega
        rw [hk1, show u32 (f + 1) = f + 1 from Nat.mod_eq_of_lt (by omega)]
        by_cases hfs1 : f + 1 < start
        · rw [usub32_of_lt (f + 1) start hfs1 (by omega)]
          simp only [if_pos (show num_seg ≤ f + 1 + (4294967296 - start) by omega)]
          simp only [if_true, if_neg (show ¬(1 : ℚ) = 0 by norm_num)]
          omega
        · rw [usub32_of_le (f + 1) start (by omega) (by omega)]
          simp only [if_neg (show ¬ num_seg ≤ f + 1 - start by omega)]
          simp only [if_true, if_neg (show ¬(1 : ℚ) = 0 by norm_num)]
          omega
      · rw [usub32_of_le f start (by omega) (by omega)]
        simp only [if_neg (show ¬ num_seg ≤ f - start by omega)]
        rw [hk1v]
        by_cases h1 : f + 1 ≤ num_clip - 1
        · simp only [if_pos h1]
          rw [show u32 (f + 1) = f + 1 from Nat.mod_eq_of_lt (by omega),
            usub32_of_le (f + 1) start (by omega) (by omega)]
          by_cases h2 : num_seg ≤ f + 1 - start
          · simp only [if_pos h2]
            simp only [if_true, if_neg (show ¬(1 : ℚ) = 0 by norm_num)]
            omega
          · simp only [if_neg h2]
            simp only [if_true, if_neg (show ¬(1 : ℚ) = 0 by norm_num)]
            omega
        · simp only [if_neg h1]
          rw [show u32 f = f from Nat.mod_eq_of_lt (by omega),
            usub32_of_le f start (by omega) (by omega)]
          simp only [if_neg (show ¬ num_seg ≤ f - start by omega)]
          simp only [if_true, if_neg (show ¬(1 : ℚ) = 0 by norm_num)]
          omega
  · constructor
    · intro db seg ctx h1 h2
      simp [sample_translation, h1, h2]
    · intro ops db seg time T pose hd h1 h2
      unfold sample_database
      rw [if_pos hd]
      simp only [writePose, if_pos rfl]
      unfold sampled_transform transform_set
      simp only
      simp [sample_translation, h1, h2]

set_option maxRecDepth 4000 in
/-- Counterexample for claim C9: a clip of 8 samples at rate 1, a uniform
segment covering clip keys 0-3, and sample_time 5.6.  The nearest clip key
is 6, whose clamped segment key is 3, but `get_uniform_sample_key` returns
0: both offset keys fall past the segment, the first clamp resets key0 to
0 with alpha 1, the second resets alpha to 0 and the function returns the
reset key0. -/
theorem C9_counterexample :
    get_uniform_sample_key 8 1 4 0 (28 / 5) = 0 ∧ c9_expected 8 1 4 0 (28 / 5) = 3 ∧
    get_uniform_sample_key 8 1 4 0 (28 / 5) ≠ c9_expected 8 1 4 0 (28 / 5) := by
  have hfind : find_linear_interpolation_samples_with_sample_rate 8 1 (28 / 5)
      SampleRoundingPolicy.Nearest = (5, 6, 1) := by
    norm_num [find_linear_interpolation_samples_with_sample_rate]
    decide
  have hu1 : usub32 (u32 5) (u32 0) = 5 := by decide
  have hu2 : usub32 (u32 6) (u32 0) = 6 := by decide
  have e1 : get_uniform_sample_key 8 1 4 0 (28 / 5) = 0 := by
    norm_num [get_uniform_sample_key, hfind, hu1, hu2]
  have e2 : c9_expected 8 1 4 0 (28 / 5) = 3 := by
    norm_num [c9_expected, roundQ]
  exact ⟨e1, e2, by rw [e1, e2]; omega⟩

/-- Witness for the amended claim C9 at the second segment (start 4, four
samples) of the same clip with sample_time 5.6: the returned key equals
the clamped nearest key 2 and lies within the segment. -/
theorem C9_uniform_key_witness :
    get_uniform_sample_key 8 1 4 4 (28 / 5) = c9_expected 8 1 4 4 (28 / 5) ∧
    get_uniform_sample_key 8 1 4 4 (28 / 5) < 4 := by
  exact (C9_uniform_key_amended 8 1 (28 / 5) 4 4 (by norm_num) (by norm_num) (by norm_num)
    (by norm_num) (by norm_num)).1

/-- Characterization of the hierarchical sampling loop: with enough fuel it
terminates and rewrites exactly the ancestor chain of the starting
transform, sampling each visited transform and leaving all other pose
entries unchanged. -/
theorem hier_loop_spec (ops : FloatOps) (dist : SampleDistribution8) (ctx : SampleContext)
    (db : TrackDatabase) (seg : SegmentContext)
    (hpar : ∀ k, db.get_parent_index k = k_invalid_bone_index ∨ db.get_parent_index k < k) :
    ∀ (fuel cur : ℕ) (pose : ℕ → Transform32), (cur < fuel ∨ cur = k_invalid_bone_index) →
    ∃ pose', hier_loop ops dist ctx db seg fuel cur pose = some pose' ∧
      ∀ i, pose' i = if i ∈ ancestor_chain db fuel cur then
        sampled_transform ops dist ctx db seg i else pose i := by
  intro fuel
  induction fuel with
  | zero =>
    intro cur pose h
    have hcur : cur = k_invalid_bone_index := by
      rcases h with h | h
      · omega
      · exact h
    refine ⟨pose, ?_, ?_⟩
    · unfold hier_loop
      rw [if_pos hcur]
    · intro i
      unfold ancestor_chain
      simp
  | succ n ih =>
    intro cur pose h
    by_cases hcur : cur = k_invalid_bone_index
    · refine ⟨pose, ?_, ?_⟩
      · unfold hier_loop
        rw [if_pos hcur]
      · intro i
        unfold ancestor_chain
        rw [if_pos hcur]
        simp
    · have hlt : cur < n + 1 := by
        rcases h with h | h
        · exact h
        · exact absurd h hcur
      have hnext : db.get_parent_index cur < n ∨ db.get_parent_index cur = k_invalid_bone_index := by
        rcases hpar cur with hp | hp
        · exact Or.inr hp
        · left
          omega
      obtain ⟨pose', heq, hchar⟩ := ih (db.get_parent_index cur)
        (writePose pose cur (sampled_transform ops dist ctx db seg cur))
        (by rcases hnext with hp | hp
            · exact Or.inl hp
            · exact Or.inr hp)
      refine ⟨pose', ?_, ?_⟩
      · unfold hier_loop
        rw [if_neg hcur]
        exact heq
      · intro i
        rw [hchar i]
        have hstep : ancestor_chain db (n + 1) cur =
            cur :: ancestor_chain db n (db.get_parent_index cur) := by
          rw [show ancestor_chain db (n + 1) cur =
            if cur = k_invalid_bone_index then [] else
              cur :: ancestor_chain db n (db.get_parent_index cur) from rfl, if_neg hcur]
        rw [hstep]
        by_cases hi : i ∈ ancestor_chain db n (db.get_parent_index cur)
        · rw [if_pos hi, if_pos (List.mem_cons_of_mem _ hi)]
        · by_cases hic : i = cur
          · rw [if_neg hi, if_pos (by rw [hic]; exact List.mem_cons_self _ _)]
            simp [writePose, hic]
          · rw [if_neg hi, if_neg (by simp [List.mem_cons, hic, hi])]
            simp [writePose, hic]

/-- Claim C10: for a database whose parent indices satisfy the hierarchy
invariant (parent is the sentinel or a lower index), hierarchical sampling
from a valid target terminates and writes `out_local_pose` exactly at the
target's ancestor chain, leaving every other pose entry unchanged; the
database, taken immutably, is untouched. -/
theorem C10_sample_hierarchical (ops : FloatOps) (db : TrackDatabase) (seg : SegmentContext)
    (time : ℚ) (target : ℕ) (pose : ℕ → Transform32)
    (hpar : ∀ k, db.get_parent_index k = k_invalid_bone_index ∨ db.get_parent_index k < k)
    (htar : target < k_invalid_bone_index) :
    ∃ pose', sample_database_hierarchical ops db seg time target pose = some pose' ∧
      ∀ i, pose' i =
        if i ∈ ancestor_chain db 65536 target then
          (if seg.distribution = SampleDistribution8.Uniform then
            sampled_transform ops SampleDistribution8.Uniform
              ⟨0, get_uniform_sample_key db.m_num_samples_per_track db.m_sample_rate
                seg.num_samples_per_track seg.start_offset time, time⟩ db seg i
          else sampled_transform ops SampleDistribution8.Variable ⟨0, 0, time⟩ db seg i)
        else pose i := by
  have hfuel : target < 65536 ∨ target = k_invalid_bone_index := by
    left
    unfold k_invalid_bone_index at htar
    omega
  unfold sample_database_hierarchical
  by_cases hd : seg.distribution = SampleDistribution8.Uniform
  · rw [if_pos hd]
    obtain ⟨pose', heq, hchar⟩ := hier_loop_spec ops SampleDistribution8.Uniform
      ⟨0, get_uniform_sample_key db.m_num_samples_per_track db.m_sample_rate
        seg.num_samples_per_track seg.start_offset time, time⟩ db seg hpar 65536 target pose hfuel
    refine ⟨pose', heq, ?_⟩
    intro i
    rw [hchar i, if_pos hd]
  · rw [if_neg hd]
    obtain ⟨pose', heq, hchar⟩ := hier_loop_spec ops SampleDistribution8.Variable
      ⟨0, 0, time⟩ db seg hpar 65536 target pose hfuel
    refine ⟨pose', heq, ?_⟩
    intro i
    rw [hchar i, if_neg hd]

/-- Concrete database for the C10 witness: three transforms in a chain
2 -> 1 -> 0 -> sentinel (scenario E of the spec). -/
def dbH : TrackDatabase :=
  { dbW5 with m_parent := fun k => if k = 0 then 65535 else k - 1 }

/-- All-zero initial pose used by the C10 witness. -/
def poseH : ℕ → Transform32 := fun _ => transform_set vector_zero_32 vector_zero_32 vector_zero_32

/-- Witness for claim C10: hierarchical sampling of transform 2 on the
chained skeleton terminates (the loop reaches the sentinel within fuel). -/
theorem C10_sample_hierarchical_witness :
    (sample_database_hierarchical opsId dbH segW5 0 2 poseH).isSome = true := by
  obtain ⟨pose', heq, _⟩ := C10_sample_hierarchical opsId dbH segW5 0 2 poseH
    (by intro k
        by_cases hk : k = 0
        · left
          simp [TrackDatabase.get_parent_index, dbH, hk, k_invalid_bone_index]
        · right
          simp [TrackDatabase.get_parent_index, dbH, hk]
          omega)
    (by unfold k_invalid_bone_index; omega)
  rw [heq]
  rfl

/-!
Constructor padding invariant (claim C6).
-/

/-- The channel bases of `transform_chans` are exactly `chan_bases`. -/
theorem transform_chans_map_fst (ops : FloatOps) (clip : AnimationClip) (hs : Bool) (S t soa : ℕ) :
    (transform_chans ops clip hs S t soa).map Prod.fst = chan_bases hs S t soa := by
  cases hs <;> simp [transform_chans, chan_bases]

/-- Channel-slot injectivity: distinct (base, sample) pairs address distinct
bytes. -/
def InjOn4 (bases : List ℕ) (S : ℕ) : Prop :=
  ∀ a ∈ bases, ∀ b ∈ bases, ∀ j k : ℕ, j < S → k < S → a + 4 * j = b + 4 * k → a = b ∧ j = k

theorem copy_step_outside (chans : List (ℕ × (ℕ → ℚ))) (j : ℕ) :
    ∀ (d : ℕ → ℚ) (o : ℕ), (∀ c ∈ chans, o ≠ c.1 + 4 * j) → copy_step chans d j o = d o := by
  induction chans with
  | nil => intro d o _; rfl
  | cons c cs ih =>
    intro d o h
    unfold copy_step at *
    rw [List.foldl_cons]
    rw [ih (writeData d (c.1 + 4 * j) (c.2 j)) o (fun c' hc' => h c' (List.mem_cons_of_mem _ hc'))]
    exact writeData_ne _ _ _ _ (h c (List.mem_cons_self _ _))

theorem pad_step_outside (bases : List ℕ) (last j : ℕ) :
    ∀ (d : ℕ → ℚ) (o : ℕ), (∀ a ∈ bases, o ≠ a + 4 * j) → pad_step bases last d j o = d o := by
  induction bases with
  | nil => intro d o _; rfl
  | cons b bs ih =>
    intro d o h
    unfold pad_step at *
    rw [List.foldl_cons]
    rw [ih (writeData d (b + 4 * j) (d (b + 4 * last))) o
      (fun a ha => h a (List.mem_cons_of_mem _ ha))]
    exact writeData_ne _ _ _ _ (h b (List.mem_cons_self _ _))

theorem copy_loop_outside (chans : List (ℕ × (ℕ → ℚ))) (L : List ℕ) :
    ∀ (d : ℕ → ℚ) (o : ℕ), (∀ c ∈ chans, ∀ jj ∈ L, o ≠ c.1 + 4 * jj) →
    L.foldl (copy_step chans) d o = d o := by
  induction L with
  | nil => intro d o _; rfl
  | cons j L' ih =>
    intro d o h
    rw [List.foldl_cons]
    rw [ih (copy_step chans d j) o (fun c hc jj hjj => h c hc jj (List.mem_cons_of_mem _ hjj))]
    exact copy_step_outside chans j d o (fun c hc => h c hc j (List.mem_cons_self _ _))

theorem pad_loop_outside (bases : List ℕ) (last : ℕ) (L : List ℕ) :
    ∀ (d : ℕ → ℚ) (o : ℕ), (∀ a ∈ bases, ∀ jj ∈ L, o ≠ a + 4 * jj) →
    L.foldl (pad_step bases last) d o = d o := by
  induction L with
  | nil => intro d o _; rfl
  | cons j L' ih =>
    intro d o h
    rw [List.foldl_cons]
    rw [ih (pad_step bases last d j) o (fun a ha jj hjj => h a ha jj (List.mem_cons_of_mem _ hjj))]
    exact pad_step_outside bases last j d o (fun a ha => h a ha j (List.mem_cons_self _ _))

/-- Every write of `transform_pass` lands on a channel-base slot, so any
other offset is untouched. -/
theorem transform_pass_outside (chans : List (ℕ × (ℕ → ℚ))) (n S : ℕ) (d : ℕ → ℚ) (o : ℕ)
    (hn : n ≤ S) (h : ∀ c ∈ chans, ∀ jj, jj < S → o ≠ c.1 + 4 * jj) :
    transform_pass chans n S d o = d o := by
  unfold transform_pass
  rw [pad_loop_outside _ _ _ _ o ?_]
  · exact copy_loop_outside chans (List.range n) d o
      (fun c hc jj hjj => h c hc jj (lt_of_lt_of_le (List.mem_range.mp hjj) hn))
  · intro a ha jj hjj
    obtain ⟨c, hc, rfl⟩ := List.mem_map.mp ha
    exact h c hc jj (by
      have := List.mem_range'_1.mp hjj
      omega)

/-- The padding pass reads each channel's last-valid slot and writes padding
slots only; a single sweep leaves every last-valid slot unchanged and
stores its value into the swept slot of each channel. -/
theorem pad_fold_aux (basesAll : List ℕ) (S last j : ℕ) (hInj : InjOn4 basesAll S)
    (hlast : last < S) (hj : j < S) (hne : j ≠ last) :
    ∀ (bs : List ℕ), (∀ a ∈ bs, a ∈ basesAll) →
    ∀ (d d0 : ℕ → ℚ), (∀ a ∈ basesAll, d (a + 4 * last) = d0 (a + 4 * last)) →
    (∀ a ∈ basesAll,
      (bs.foldl (fun d a => writeData d (a + 4 * j) (d (a + 4 * last))) d) (a + 4 * last) =
        d0 (a + 4 * last)) ∧
    (∀ a ∈ bs,
      (bs.foldl (fun d a => writeData d (a + 4 * j) (d (a + 4 * last))) d) (a + 4 * j) =
        d0 (a + 4 * last)) := by
  intro bs
  induction bs with
  | nil =>
    intro _ d d0 hsrc
    exact ⟨fun a ha => hsrc a ha, fun a ha => absurd ha (List.not_mem_nil a)⟩
  | cons b bs' ih =>
    intro hsub d d0 hsrc
    have hb : b ∈ basesAll := hsub b (List.mem_cons_self _ _)
    have hsrc1 : ∀ a ∈ basesAll,
        writeData d (b + 4 * j) (d (b + 4 * last)) (a + 4 * last) = d0 (a + 4 * last) := by
      intro a ha
      rw [writeData_ne]
      · exact hsrc a ha
      · intro heq
        exact hne (hInj a ha b hb last j hlast hj heq).2.symm
    obtain ⟨IH1, IH2⟩ := ih (fun a ha => hsub a (List.mem_cons_of_mem _ ha))
      (writeData d (b + 4 * j) (d (b + 4 * last))) d0 hsrc1
    refine ⟨fun a ha => by rw [List.foldl_cons]; exact IH1 a ha, ?_⟩
    intro a ha
    rw [List.foldl_cons]
    rcases List.mem_cons.mp ha with rfl | ha'
    · by_cases hmem : a ∈ bs'
      · exact IH2 a hmem
      · have hout : ∀ a' ∈ bs', a + 4 * j ≠ a' + 4 * j := by
          intro a' ha' heq
          have := (hInj a hb a' (hsub a' (List.mem_cons_of_mem _ ha')) j j hj hj heq).1
          exact hmem (this ▸ ha')
        have hfold : (bs'.foldl (fun d a => writeData d (a + 4 * j) (d (a + 4 * last)))
            (writeData d (a + 4 * j) (d (a + 4 * last)))) (a + 4 * j) =
            writeData d (a + 4 * j) (d (a + 4 * last)) (a + 4 * j) :=
          pad_step_outside bs' last j _ _ hout
        rw [hfold, writeData_eq]
        exact hsrc a hb
    · exact IH2 a ha'

/-- After `transform_pass`, each channel's padding slots (indices n..S-1)
hold exactly the channel's last valid sample: the copy loop fills the
valid slots and the padding loop replicates slot n-1. -/
theorem transform_pass_padding (chans : List (ℕ × (ℕ → ℚ))) (n S : ℕ) (d : ℕ → ℚ)
    (hInj : InjOn4 (chans.map Prod.fst) S) (hn1 : 1 ≤ n) (hnS : n ≤ S) :
    ∀ a ∈ chans.map Prod.fst, ∀ j, n ≤ j → j < S →
      transform_pass chans n S d (a + 4 * j) = transform_pass chans n S d (a + 4 * (n - 1)) := by
  unfold transform_pass
  set bases := chans.map Prod.fst with hbases
  set d1 := (List.range n).foldl (copy_step chans) d with hd1
  suffices h : ∀ L : List ℕ, (∀ jj ∈ L, n ≤ jj ∧ jj < S) →
      ∀ dd : ℕ → ℚ, (∀ a ∈ bases, dd (a + 4 * (n - 1)) = d1 (a + 4 * (n - 1))) →
      (∀ a ∈ bases, (L.foldl (pad_step bases (n - 1)) dd) (a + 4 * (n - 1)) =
        d1 (a + 4 * (n - 1))) ∧
      (∀ a ∈ bases, ∀ j ∈ L, (L.foldl (pad_step bases (n - 1)) dd) (a + 4 * j) =
        d1 (a + 4 * (n - 1))) by
    intro a ha j hjn hjS
    obtain ⟨H1, H2⟩ := h (List.range' n (S - n))
      (fun jj hjj => by
        have := List.mem_range'_1.mp hjj
        omega) d1 (fun _ _ => rfl)
    rw [H2 a ha j (List.mem_range'_1.mpr (by omega)), H1 a ha]
  intro L
  induction L with
  | nil =>
    intro _ dd hsrc
    exact ⟨fun a ha => hsrc a ha, fun a _ j hj => absurd hj (List.not_mem_nil j)⟩
  | cons jj L' ih =>
    intro hL dd hsrc
    have hjj := hL jj (List.mem_cons_self _ _)
    have hsteps := pad_fold_aux bases S (n - 1) jj hInj (by omega) (by omega) (by omega)
      bases (fun a ha => ha) dd dd (fun _ _ => rfl)
    have hsrc2 : ∀ a ∈ bases, pad_step bases (n - 1) dd jj (a + 4 * (n - 1)) =
        d1 (a + 4 * (n - 1)) := by
      intro a ha
      have := hsteps.1 a ha
      unfold pad_step
      rw [this]
      exact hsrc a ha
    obtain ⟨K1, K2⟩ := ih (fun j' hj' => hL j' (List.mem_cons_of_mem _ hj')) _ hsrc2
    refine ⟨fun a ha => by rw [List.foldl_cons]; exact K1 a ha, ?_⟩
    intro a ha j hj
    rw [List.foldl_cons]
    rcases List.mem_cons.mp hj with rfl | hj'
    · by_cases hmem : j ∈ L'
      · exact K2 a ha j hmem
      · have hout : ∀ b ∈ bases, ∀ j' ∈ L', a + 4 * j ≠ b + 4 * j' := by
          intro b hb j' hj'' heq
          have hj'b := hL j' (List.mem_cons_of_mem _ hj'')
          obtain ⟨hab, hjj'⟩ := hInj a ha b hb j j' hjj.2 hj'b.2 heq
          exact hmem (hjj' ▸ hj'')
        rw [pad_loop_outside bases (n - 1) L' _ _ hout]
        have := hsteps.2 a ha
        unfold pad_step
        rw [this]
        exact hsrc a ha
    · exact K2 a ha j hj'

theorem euclid_unique (S m m' j k : ℕ) (hj : j < S) (hk : k < S)
    (h : S * m + j = S * m' + k) : m = m' ∧ j = k := by
  have hmm : m = m' := by
    rcases Nat.lt_trichotomy m m' with hlt | he | hgt
    · exfalso
      have h2 : S * (m + 1) ≤ S * m' := Nat.mul_le_mul_left S hlt
      rw [Nat.mul_add, Nat.mul_one] at h2
      omega
    · exact he
    · exfalso
      have h2 : S * (m' + 1) ≤ S * m := Nat.mul_le_mul_left S hgt
      rw [Nat.mul_add, Nat.mul_one] at h2
      omega
  subst hmm
  omega

/-- Every channel base of a transform is the segment start plus a whole
number of components below `num_components * t + 10`. -/
theorem chan_bases_form (hs : Bool) (S t soa : ℕ)
    (H : 4 * S * get_num_components_per_transform hs * (t + 1) + 40 * S < 4294967296) :
    ∀ a ∈ chan_bases hs S t soa, ∃ c, c < 10 ∧
      a = soa + 4 * S * (get_num_components_per_transform hs * t + c) := by
  obtain ⟨hcs, hoy, hoz, how, hroe, htroe, hscoe⟩ := offsets_reduced hs S t H
  intro a ha
  set C := get_num_components_per_transform hs with hC
  cases hs with
  | false =>
    simp [chan_bases, hroe, htroe, hscoe, hoy, hoz, how] at ha
    rcases ha with h | h | h | h | h | h | h
    · exact ⟨0, by omega, by rw [h]; ring⟩
    · exact ⟨1, by omega, by rw [h]; ring⟩
    · exact ⟨2, by omega, by rw [h]; ring⟩
    · exact ⟨3, by omega, by rw [h]; ring⟩
    · exact ⟨4, by omega, by rw [h]; ring⟩
    · exact ⟨5, by omega, by rw [h]; ring⟩
    · exact ⟨6, by omega, by rw [h]; ring⟩
  | true =>
    simp [chan_bases, hroe, htroe, hscoe, hoy, hoz, how] at ha
    rcases ha with h | h | h | h | h | h | h | h | h | h
    · exact ⟨0, by omega, by rw [h]; ring⟩
    · exact ⟨1, by omega, by rw [h]; ring⟩
    · exact ⟨2, by omega, by rw [h]; ring⟩
    · exact ⟨3, by omega, by rw [h]; ring⟩
    · exact ⟨4, by omega, by rw [h]; ring⟩
    · exact ⟨5, by omega, by rw [h]; ring⟩
    · exact ⟨6, by omega, by rw [h]; ring⟩
    · exact ⟨7, by omega, by rw [h]; ring⟩
    · exact ⟨8, by omega, by rw [h]; ring⟩
    · exact ⟨9, by omega, by rw [h]; ring⟩

/-- Channel-slot injectivity of one transform's channel bases. -/
theorem chan_bases_inj (hs : Bool) (S t soa : ℕ)
    (H : 4 * S * get_num_components_per_transform hs * (t + 1) + 40 * S < 4294967296) :
    InjOn4 (chan_bases hs S t soa) S := by
  intro a ha b hb j k hj hk heq
  obtain ⟨ca, hca, rfl⟩ := chan_bases_form hs S t soa H a ha
  obtain ⟨cb, hcb, rfl⟩ := chan_bases_form hs S t soa H b hb
  set C := get_num_components_per_transform hs with hC
  have h4 : S * (C * t + ca) + j = S * (C * t + cb) + k := by
    have hexp : 4 * (S * (C * t + ca)) + 4 * j = 4 * (S * (C * t + cb)) + 4 * k := by
      have e1 : soa + 4 * S * (C * t + ca) + 4 * j =
          soa + (4 * (S * (C * t + ca)) + 4 * j) := by ring
      have e2 : soa + 4 * S * (C * t + cb) + 4 * k =
          soa + (4 * (S * (C * t + cb)) + 4 * k) := by ring
      rw [e1, e2] at heq
      omega
    omega
  obtain ⟨hm, hjk⟩ := euclid_unique S (C * t + ca) (C * t + cb) j k hj hk h4
  exact ⟨by rw [hm], hjk⟩

/-- Monotone form of the segment no-overflow bound. -/
theorem bound_mono (S C T t : ℕ) (ht : t < T)
    (H : 4 * S * C * T + 40 * S < 4294967296) :
    4 * S * C * (t + 1) + 40 * S < 4294967296 := by
  have : 4 * S * C * (t + 1) ≤ 4 * S * C * T := Nat.mul_le_mul_left _ (by omega)
  omega

/-- Every slot of a transform's channels lies inside the segment's written
region. -/
theorem chan_slot_in_region (hs : Bool) (S t soa T : ℕ) (ht : t < T)
    (H : 4 * S * get_num_components_per_transform hs * T + 40 * S < 4294967296) :
    ∀ a ∈ chan_bases hs S t soa, ∀ j, j < S →
      soa ≤ a + 4 * j ∧ a + 4 * j < soa + 4 * S * (get_num_components_per_transform hs * T + 10) := by
  intro a ha j hj
  set C := get_num_components_per_transform hs with hC
  obtain ⟨c, hc, rfl⟩ := chan_bases_form hs S t soa (bound_mono S C T t ht H) a ha
  simp only [← hC]
  constructor
  · omega
  · have h1 : C * t ≤ C * T := Nat.mul_le_mul_left C (le_of_lt ht)
    have h2 : C * t + c + 1 ≤ C * T + 10 := by omega
    have h3 : 4 * S * (C * t + c + 1) ≤ 4 * S * (C * T + 10) := Nat.mul_le_mul_left _ h2
    have h4 : 4 * S * (C * t + c + 1) = 4 * S * (C * t + c) + 4 * S := by ring
    omega

/-- A fold of transform passes leaves untouched any offset outside all of
their channel slots. -/
theorem segment_transforms_outside (ops : FloatOps) (clip : AnimationClip) (seg : SegmentContext)
    (L : List ℕ) (o : ℕ)
    (hnS : seg.num_samples_per_track ≤ seg.num_simd_samples_per_track)
    (h : ∀ t ∈ L, ∀ c ∈ transform_chans ops clip clip.has_scale
        seg.num_simd_samples_per_track t seg.soa_start_offset,
      ∀ jj, jj < seg.num_simd_samples_per_track → o ≠ c.1 + 4 * jj) :
    ∀ d : ℕ → ℚ,
      (L.foldl (fun d t =>
        transform_pass
          (transform_chans ops clip clip.has_scale seg.num_simd_samples_per_track t
            seg.soa_start_offset)
          seg.num_samples_per_track seg.num_simd_samples_per_track d) d) o = d o := by
  induction L with
  | nil => intro d; rfl
  | cons t L' ih =>
    intro d
    rw [List.foldl_cons]
    rw [ih (fun t' ht' => h t' (List.mem_cons_of_mem _ ht'))]
    exact transform_pass_outside _ _ _ _ o hnS (h t (List.mem_cons_self _ _))

/-- `segment_pass` writes only inside the segment's region. -/
theorem segment_pass_outside (ops : FloatOps) (clip : AnimationClip) (seg : SegmentContext)
    (d : ℕ → ℚ) (o : ℕ)
    (hnS : seg.num_samples_per_track ≤ seg.num_simd_samples_per_track)
    (H : 4 * seg.num_simd_samples_per_track * get_num_components_per_transform clip.has_scale *
      clip.num_bones + 40 * seg.num_simd_samples_per_track < 4294967296)
    (hout : o < seg.soa_start_offset ∨
      seg.soa_start_offset + 4 * seg.num_simd_samples_per_track *
        (get_num_components_per_transform clip.has_scale * clip.num_bones + 10) ≤ o) :
    segment_pass ops clip seg d o = d o := by
  unfold segment_pass
  apply segment_transforms_outside ops clip seg _ o hnS
  intro t ht c hc jj hjj heq
  have htT : t < clip.num_bones := List.mem_range.mp ht
  have hcb : c.1 ∈ chan_bases clip.has_scale seg.num_simd_samples_per_track t
      seg.soa_start_offset := by
    rw [← transform_chans_map_fst ops clip clip.has_scale seg.num_simd_samples_per_track t
      seg.soa_start_offset]
    exact List.mem_map_of_mem Prod.fst hc
  obtain ⟨hlo, hhi⟩ := chan_slot_in_region clip.has_scale seg.num_simd_samples_per_track t
    seg.soa_start_offset clip.num_bones htT H c.1 hcb jj hjj
  omega

/-- After `segment_pass`, the padding slots of every transform's channels
replicate the channel's last valid sample: later transforms either rewrite
a channel wholly (re-establishing the property) or do not touch it. -/
theorem segment_pass_padding (ops : FloatOps) (clip : AnimationClip) (seg : SegmentContext)
    (d : ℕ → ℚ)
    (hn1 : 1 ≤ seg.num_samples_per_track)
    (hnS : seg.num_samples_per_track ≤ seg.num_simd_samples_per_track)
    (H : 4 * seg.num_simd_samples_per_track * get_num_components_per_transform clip.has_scale *
      clip.num_bones + 40 * seg.num_simd_samples_per_track < 4294967296) :
    ∀ t, t < clip.num_bones →
      ∀ a ∈ chan_bases clip.has_scale seg.num_simd_samples_per_track t seg.soa_start_offset,
      ∀ j, seg.num_samples_per_track ≤ j → j < seg.num_simd_samples_per_track →
        segment_pass ops clip seg d (a + 4 * j) =
          segment_pass ops clip seg d (a + 4 * (seg.num_samples_per_track - 1)) := by
  set S := seg.num_simd_samples_per_track with hSd
  set n := seg.num_samples_per_track with hnd
  set T := clip.num_bones with hTd
  set hs := clip.has_scale with hhs
  set soa := seg.soa_start_offset with hsoa
  intro t0 ht0 a0 ha0 j0 hj0n hj0S
  unfold segment_pass
  rw [← hSd, ← hnd, ← hTd, ← hhs, ← hsoa]
  suffices h : ∀ L : List ℕ, (∀ x ∈ L, x < T) → ∀ dd : ℕ → ℚ, ∀ t' ∈ L,
      ∀ a ∈ chan_bases hs S t' soa, ∀ j, n ≤ j → j < S →
      (L.foldl (fun dd t => transform_pass (transform_chans ops clip hs S t soa) n S dd) dd)
          (a + 4 * j) =
        (L.foldl (fun dd t => transform_pass (transform_chans ops clip hs S t soa) n S dd) dd)
          (a + 4 * (n - 1)) by
    exact h (List.range T) (fun x hx => List.mem_range.mp hx) d t0 (List.mem_range.mpr ht0)
      a0 ha0 j0 hj0n hj0S
  intro L
  induction L with
  | nil => intro _ dd t' ht'; exact absurd ht' (List.not_mem_nil t')
  | cons t L' ih =>
    intro hL dd t' ht' a ha j hjn hjS
    simp only [List.foldl_cons]
    by_cases hmem : t' ∈ L'
    · exact ih (fun x hx => hL x (List.mem_cons_of_mem _ hx)) _ t' hmem a ha j hjn hjS
    · have ht'eq : t' = t := by
        rcases List.mem_cons.mp ht' with h | h
        · exact h
        · exact absurd h hmem
      subst ht'eq
      have htT : t' < T := hL t' (List.mem_cons_self _ _)
      by_cases hA : ∃ t'' ∈ L', a ∈ chan_bases hs S t'' soa
      · obtain ⟨t'', ht''L, ha''⟩ := hA
        exact ih (fun x hx => hL x (List.mem_cons_of_mem _ hx)) _ t'' ht''L a ha'' j hjn hjS
      · push_neg at hA
        have hform := chan_bases_form hs S t' soa (bound_mono S _ T t' htT H) a ha
        obtain ⟨ca, hca, haeq⟩ := hform
        have huntouched : ∀ jj, jj < S →
            (L'.foldl (fun dd t => transform_pass (transform_chans ops clip hs S t soa) n S dd)
              (transform_pass (transform_chans ops clip hs S t' soa) n S dd)) (a + 4 * jj) =
            transform_pass (transform_chans ops clip hs S t' soa) n S dd (a + 4 * jj) := by
          intro jj hjjS
          apply segment_transforms_outside ops clip seg L' (a + 4 * jj) hnS
          intro t'' ht'' c hc kk hkk heq
          have ht''T : t'' < T := hL t'' (List.mem_cons_of_mem _ ht'')
          have hcb : c.1 ∈ chan_bases hs S t'' soa := by
            rw [← transform_chans_map_fst ops clip hs S t'' soa]
            exact List.mem_map_of_mem Prod.fst hc
          obtain ⟨cc, hcc, hceq⟩ := chan_bases_form hs S t'' soa
            (bound_mono S _ T t'' ht''T H) c.1 hcb
          rw [haeq, hceq] at heq
          set C := get_num_components_per_transform hs with hC
          have h4 : S * (C * t' + ca) + jj = S * (C * t'' + cc) + kk := by
            have e1 : soa + 4 * S * (C * t' + ca) + 4 * jj =
                soa + (4 * (S * (C * t' + ca)) + 4 * jj) := by ring
            have e2 : soa + 4 * S * (C * t'' + cc) + 4 * kk =
                soa + (4 * (S * (C * t'' + cc)) + 4 * kk) := by ring
            rw [e1, e2] at heq
            omega
          obtain ⟨hm, _⟩ := euclid_unique S _ _ jj kk hjjS hkk h4
          have haeq2 : a = c.1 := by rw [haeq, hceq, hm]
          exact hA t'' ht'' (haeq2 ▸ hcb)
        rw [huntouched j hjS, huntouched (n - 1) (by omega)]
        have hInj : InjOn4 ((transform_chans ops clip hs S t' soa).map Prod.fst) S := by
          rw [transform_chans_map_fst]
          exact chan_bases_inj hs S t' soa (bound_mono S _ T t' htT H)
        exact transform_pass_padding _ n S dd hInj hn1 hnS a
          (by rw [transform_chans_map_fst]; exact ha) j hjn hjS

/-- A fold of segment passes leaves untouched any offset outside all of
their regions. -/
theorem segments_fold_preserves (ops : FloatOps) (clip : AnimationClip) :
    ∀ (l : List SegmentContext) (o : ℕ),
    (∀ sg ∈ l,
      sg.num_samples_per_track ≤ sg.num_simd_samples_per_track ∧
      4 * sg.num_simd_samples_per_track * get_num_components_per_transform clip.has_scale *
        clip.num_bones + 40 * sg.num_simd_samples_per_track < 4294967296 ∧
      (o < sg.soa_start_offset ∨
        sg.soa_start_offset + 4 * sg.num_simd_samples_per_track *
          (get_num_components_per_transform clip.has_scale * clip.num_bones + 10) ≤ o)) →
    ∀ d : ℕ → ℚ, (l.foldl (fun d sg => segment_pass ops clip sg d) d) o = d o := by
  intro l
  induction l with
  | nil => intro o _ d; rfl
  | cons x l' ih =>
    intro o h d
    simp only [List.foldl_cons]
    rw [ih o (fun sg hsg => h sg (List.mem_cons_of_mem _ hsg))]
    obtain ⟨h1, h2, h3⟩ := h x (List.mem_cons_self _ _)
    exact segment_pass_outside ops clip x d o h1 h2 h3

/-- Supporting lemma: the constructor's padding loop does replicate the last
valid sample into every padding slot of every channel of a segment, provided
the segments' written regions are pairwise disjoint (so no later segment
overwrites an earlier segment's channels).  The contiguous layout mandated by
the spec violates this disjointness whenever the buggy component stride
exceeds the per-segment region, which is what the counterexample below
exploits. -/
theorem padding_replication_of_disjoint_regions (ops : FloatOps) (clip : AnimationClip) (sk : ℕ → ℕ)
    (segments : List SegmentContext) (init : ℕ → ℚ) (s : SegmentContext)
    (hmem : s ∈ segments)
    (hok : ∀ sg ∈ segments,
      sg.num_samples_per_track ≤ sg.num_simd_samples_per_track ∧
      4 * sg.num_simd_samples_per_track * get_num_components_per_transform clip.has_scale *
        clip.num_bones + 40 * sg.num_simd_samples_per_track < 4294967296)
    (hdisj : segments.Pairwise (fun s1 s2 =>
      s1.soa_start_offset + 4 * s1.num_simd_samples_per_track *
        (get_num_components_per_transform clip.has_scale * clip.num_bones + 10) ≤
          s2.soa_start_offset ∨
      s2.soa_start_offset + 4 * s2.num_simd_samples_per_track *
        (get_num_components_per_transform clip.has_scale * clip.num_bones + 10) ≤
          s1.soa_start_offset))
    (hn1 : 1 ≤ s.num_samples_per_track)
    (t : ℕ) (ht : t < clip.num_bones) :
    ∀ a ∈ chan_bases clip.has_scale s.num_simd_samples_per_track t s.soa_start_offset,
    ∀ j, s.num_samples_per_track ≤ j → j < s.num_simd_samples_per_track →
      (track_database_construct ops clip sk segments init).m_data (a + 4 * j) =
      (track_database_construct ops clip sk segments init).m_data
        (a + 4 * (s.num_samples_per_track - 1)) := by
  intro a0 ha0 j0 hj0n hj0S
  show (segments.foldl (fun d seg => segment_pass ops clip seg d) init) (a0 + 4 * j0) = _
  suffices h : ∀ (l : List SegmentContext), s ∈ l →
      (∀ sg ∈ l,
        sg.num_samples_per_track ≤ sg.num_simd_samples_per_track ∧
        4 * sg.num_simd_samples_per_track * get_num_components_per_transform clip.has_scale *
          clip.num_bones + 40 * sg.num_simd_samples_per_track < 4294967296) →
      l.Pairwise (fun s1 s2 =>
        s1.soa_start_offset + 4 * s1.num_simd_samples_per_track *
          (get_num_components_per_transform clip.has_scale * clip.num_bones + 10) ≤
            s2.soa_start_offset ∨
        s2.soa_start_offset + 4 * s2.num_simd_samples_per_track *
          (get_num_components_per_transform clip.has_scale * clip.num_bones + 10) ≤
            s1.soa_start_offset) →
      ∀ d : ℕ → ℚ, ∀ a ∈ chan_bases clip.has_scale s.num_simd_samples_per_track t
          s.soa_start_offset,
      ∀ j, s.num_samples_per_track ≤ j → j < s.num_simd_samples_per_track →
        (l.foldl (fun d sg => segment_pass ops clip sg d) d) (a + 4 * j) =
        (l.foldl (fun d sg => segment_pass ops clip sg d) d)
          (a + 4 * (s.num_samples_per_track - 1)) by
    exact h segments hmem hok hdisj init a0 ha0 j0 hj0n hj0S
  intro l
  induction l with
  | nil => intro hm; exact absurd hm (List.not_mem_nil s)
  | cons x l' ih =>
    intro hm hokl hpw d a ha j hjn hjS
    simp only [List.foldl_cons]
    obtain ⟨hpw1, hpw2⟩ := List.pairwise_cons.mp hpw
    by_cases hsx : s ∈ l'
    · exact ih hsx (fun sg hsg => hokl sg (List.mem_cons_of_mem _ hsg)) hpw2 _ a ha j hjn hjS
    · have hseq : s = x := by
        rcases List.mem_cons.mp hm with h | h
        · exact h
        · exact absurd h hsx
      subst hseq
      obtain ⟨hok1, hok2⟩ := hokl s (List.mem_cons_self _ _)
      have hpres : ∀ o, s.soa_start_offset ≤ o →
          o < s.soa_start_offset + 4 * s.num_simd_samples_per_track *
            (get_num_components_per_transform clip.has_scale * clip.num_bones + 10) →
          (l'.foldl (fun d sg => segment_pass ops clip sg d) (segment_pass ops clip s d)) o =
            segment_pass ops clip s d o := by
        intro o ho1 ho2
        apply segments_fold_preserves ops clip l' o
        intro sg hsg
        obtain ⟨hg1, hg2⟩ := hokl sg (List.mem_cons_of_mem _ hsg)
        refine ⟨hg1, hg2, ?_⟩
        rcases hpw1 sg hsg with hcase | hcase
        · omega
        · omega
      have hin1 := chan_slot_in_region clip.has_scale s.num_simd_samples_per_track t
        s.soa_start_offset clip.num_bones ht hok2 a ha j hjS
      have hin2 := chan_slot_in_region clip.has_scale s.num_simd_samples_per_track t
        s.soa_start_offset clip.num_bones ht hok2 a ha (s.num_samples_per_track - 1) (by omega)
      rw [hpres _ hin1.1 hin1.2, hpres _ hin2.1 hin2.2]
      exact segment_pass_padding ops clip s d hn1 hok1 hok2 t ht a ha j hjn hjS

/-- Example instance of the disjoint-regions padding lemma at a concrete
one-bone clip with one valid sample and two SIMD slots: the padding slot of
the rotation-x channel equals the last valid slot. -/
theorem padding_replication_disjoint_example :
    (track_database_construct opsId clipNoScale (fun _ => 65535) [segA] (fun _ => 0)).m_data
        (0 + 4 * 1) =
      (track_database_construct opsId clipNoScale (fun _ => 65535) [segA]
        (fun _ => 0)).m_data (0 + 4 * (1 - 1)) := by
  have h := padding_replication_of_disjoint_regions opsId clipNoScale (fun _ => 65535) [segA] (fun _ => 0) segA
    (List.mem_singleton.mpr rfl)
    (by intro sg hsg
        rw [List.mem_singleton] at hsg
        subst hsg
        exact ⟨by decide, by decide⟩)
    (by simp)
    (by decide) 0 (by decide) 0 (by decide) 1 (by decide) (by decide)
  exact h

/-!
Claim C6: the padding-replication invariant on the spec's contiguous layout.
The segment partitioner is not part of the sources; the spec gives its
layout exactly: segment regions of `num_transforms * C * S * 4` bytes with
C = 7 for a clip without scale, packed back to back (the buffer length is
the sum of the per-segment `soa_size`), over segments whose `start_offset`s
tile the clip's samples.  The constructor, however, strides transforms
`get_num_components_per_transform` = 10 components apart for a no-scale
clip (the inverted ternary of claim C1), so the trailing transforms of each
segment are written past that segment's region, inside the next segment's
region, and the next segment's pass overwrites them with its own samples
under its own sample count.  The concrete two-segment clip below realises
this: segment 0 (1 valid sample, 4 SIMD slots) has its transform-1
translation-x channel at byte 224, exactly segment 1's first rotation-x
channel, which segment 1 (2 valid samples) fills with two distinct samples.
-/

